import Mathlib

/-
  Verification of core algorithms of a distributed vector search engine
  (HNSW graph builder, resharding state machine, segment optimizer,
  query merge, shard transfer helpers, payload condition checkers).

  Each definition is a shallow embedding of the corresponding Rust
  function; machine floats (scores) are modelled as integers or
  rationals, fallible functions return `Except`, and stateful methods
  are explicit state transformers.
-/

namespace Qdrant

/-! ## HNSW graph builder (`graph_layers_builder.rs`) -/

/-- A candidate point offset together with its score against the point
being inserted (`ScoredPointOffset`).  Scores (`f32` in the source) are
modelled as integers: only comparisons matter to the algorithms. -/
structure ScoredPointOffset where
  idx : Nat
  score : Int
deriving DecidableEq

/-- `GraphLayersBuilder::select_candidate_with_heuristic_from_sorted`:
walk candidates best-first, stop as soon as `m` are accepted, accept a
candidate only when no already-accepted point scores higher against it
than its own score against the inserted point. -/
def select_candidate_with_heuristic_from_sorted
    (score_internal : Nat → Nat → Int) (m : Nat) :
    List ScoredPointOffset → List Nat → List Nat
  | [], result_list => result_list
  | c :: rest, result_list =>
    if result_list.length ≥ m then
      result_list
    else if result_list.all (fun s => !(score_internal c.idx s > c.score)) then
      select_candidate_with_heuristic_from_sorted score_internal m rest
        (result_list ++ [c.idx])
    else
      select_candidate_with_heuristic_from_sorted score_internal m rest result_list

/-- `GraphLayersBuilder::get_m`: level fan-out is `m0` at level 0 and
`m` above. -/
def get_m (m m0 level : Nat) : Nat :=
  if level = 0 then m0 else m

/-- `GraphLayersBuilder::connect_new_point`: insert `new_point_id` into
`links` keeping the list sorted by score against `target_point_id`,
popping the worst link when the list is already at the fan-out. -/
def connect_new_point (score_internal : Nat → Nat → Int)
    (links : List Nat) (new_point_id target_point_id : Nat) (level_m : Nat) :
    List Nat :=
  let new_to_target := score_internal target_point_id new_point_id
  let id_to_insert := links.findIdx
    (fun item => score_internal target_point_id item < new_to_target)
  if links.length < level_m then
    links.insertIdx id_to_insert new_point_id
  else if id_to_insert ≠ links.length then
    links.dropLast.insertIdx id_to_insert new_point_id
  else
    links

/-- Insertion of one scored candidate into a list sorted by descending
score (model of `BinaryHeap::into_sorted_vec().rev()` on
`ScoredPointOffset`, which orders by score). -/
def insertDescByScore (c : ScoredPointOffset) :
    List ScoredPointOffset → List ScoredPointOffset
  | [] => [c]
  | x :: xs => if x.score ≤ c.score then c :: x :: xs else x :: insertDescByScore c xs

/-- Sort scored candidates by descending score. -/
def sortDescByScore (l : List ScoredPointOffset) : List ScoredPointOffset :=
  l.foldr insertDescByScore []

/-- The heuristic branch of `link_new_point`, per selected neighbour
`other_point`: push `point_id` when the neighbour's list is below the
fan-out, otherwise re-select from `point_id` plus the first `level_m`
existing links via the same heuristic. -/
def update_neighbour_links (score_internal : Nat → Nat → Int) (level_m : Nat)
    (point_id other_point : Nat) (other_point_links : List Nat) : List Nat :=
  if other_point_links.length < level_m then
    other_point_links ++ [point_id]
  else
    let candidates :=
      ⟨point_id, score_internal point_id other_point⟩ ::
        (other_point_links.take level_m).map
          (fun l => ⟨l, score_internal l other_point⟩)
    select_candidate_with_heuristic_from_sorted score_internal level_m
      (sortDescByScore candidates) []

/-- Pointwise update of a per-point link table. -/
def updLinks (st : Nat → List Nat) (k : Nat) (v : List Nat) : Nat → List Nat :=
  fun i => if i = k then v else st i

/-- One level of `link_new_point` with `use_heuristic = true`: write the
heuristic selection as the new point's link list, then back-link each
selected neighbour (re-selecting on overflow). -/
def link_on_level_heuristic (score_internal : Nat → Nat → Int) (level_m : Nat)
    (point_id : Nat) (nearest_points : List ScoredPointOffset)
    (links : Nat → List Nat) : Nat → List Nat :=
  let selected :=
    select_candidate_with_heuristic_from_sorted score_internal level_m
      nearest_points []
  let st0 := updLinks links point_id selected
  selected.foldl
    (fun st other_point =>
      updLinks st other_point
        (update_neighbour_links score_internal level_m point_id other_point
          (st other_point)))
    st0

/-- One level of `link_new_point` with `use_heuristic = false`: for each
nearest point connect it into the new point's list and back. -/
def link_on_level_simple (score_internal : Nat → Nat → Int) (level_m : Nat)
    (point_id : Nat) (nearest_points : List ScoredPointOffset)
    (links : Nat → List Nat) : Nat → List Nat :=
  nearest_points.foldl
    (fun st nearest =>
      let st1 := updLinks st point_id
        (connect_new_point score_internal (st point_id) nearest.idx point_id level_m)
      updLinks st1 nearest.idx
        (connect_new_point score_internal (st1 nearest.idx) point_id nearest.idx level_m))
    links

/-- One per-level linking step of an insertion.  The beam-search result
(`search_on_level`, whose implementation lives outside the builder) is
treated as an oracle input `nearest_points`, so the theorems below hold
for every possible search outcome. -/
structure LinkOp where
  point_id : Nat
  level : Nat
  nearest_points : List ScoredPointOffset

/-- Whole-graph link state: point and level to link list. -/
def LinksTable := Nat → Nat → List Nat

/-- Apply one per-level linking step to the link table. -/
def apply_link_op (use_heuristic : Bool) (score_internal : Nat → Nat → Int)
    (m m0 : Nat) (st : LinksTable) (op : LinkOp) : LinksTable :=
  let level_m := get_m m m0 op.level
  let on_level : Nat → List Nat := fun p => st p op.level
  let new_level :=
    if use_heuristic then
      link_on_level_heuristic score_internal level_m op.point_id op.nearest_points on_level
    else
      link_on_level_simple score_internal level_m op.point_id op.nearest_points on_level
  fun p l => if l = op.level then new_level p else st p l

/-- Apply a whole trace of linking steps, starting from a table. -/
def apply_link_trace (use_heuristic : Bool) (score_internal : Nat → Nat → Int)
    (m m0 : Nat) (ops : List LinkOp) (st : LinksTable) : LinksTable :=
  ops.foldl (apply_link_op use_heuristic score_internal m m0) st

/-- The empty link table (all lists empty, as created by `set_levels`). -/
def emptyLinks : LinksTable := fun _ _ => []

/-! ## Resharding state machine (`shard_holder/resharding.rs`) -/

/-- `ReshardingDirection`. -/
inductive ReshardingDirection where
  | Up
  | Down
deriving DecidableEq

/-- Modelled from the spec: the `ReshardStage` enum itself is declared
outside the sampled sources; the spec fixes its order as
MigratingPoints → ReadHashRingCommitted → WriteHashRingCommitted. -/
inductive ReshardStage where
  | MigratingPoints
  | ReadHashRingCommitted
  | WriteHashRingCommitted
deriving DecidableEq

/-- Numeric rank of a stage, used for the order comparisons. -/
def ReshardStage.rank : ReshardStage → Nat
  | .MigratingPoints => 0
  | .ReadHashRingCommitted => 1
  | .WriteHashRingCommitted => 2

/-- `stage < stage` comparison on reshard stages. -/
def stageLt (a b : ReshardStage) : Bool := a.rank < b.rank

/-- `stage >= stage` comparison on reshard stages. -/
def stageGe (a b : ReshardStage) : Bool := b.rank ≤ a.rank

/-- `ReshardKey`: identifies one resharding operation. -/
structure ReshardKey where
  direction : ReshardingDirection
  peer_id : Nat
  shard_id : Nat
  shard_key : Option String
deriving DecidableEq

/-- `ReshardState`: persisted resharding progress. -/
structure ReshardState where
  direction : ReshardingDirection
  peer_id : Nat
  shard_id : Nat
  shard_key : Option String
  stage : ReshardStage
deriving DecidableEq

/-- Modelled from the spec: `ReshardState::matches` is declared outside
the sampled sources; per the spec a `ReshardKey` uniquely identifies an
operation, so matching compares all four key fields. -/
def ReshardState.matches (s : ReshardState) (k : ReshardKey) : Bool :=
  s.direction = k.direction && s.peer_id = k.peer_id &&
    s.shard_id = k.shard_id && s.shard_key = k.shard_key

/-- Modelled from the spec: the hash-ring router (`hash_ring.rs` is
outside the sampled sources) is `Single{ring}` or `Resharding{old,new}`;
rings are modelled as their node sets (lists of shard ids). -/
inductive HashRingRouter where
  | Single (ring : List Nat)
  | Resharding (old new : List Nat)
deriving DecidableEq

/-- Modelled from the spec: committing the resharding ring keeps only
the new ring. -/
def HashRingRouter.commitResharding : HashRingRouter → HashRingRouter
  | .Single r => .Single r
  | .Resharding _ n => .Single n

/-- Modelled from the spec: aborting reverts to the old (pre-resharding)
ring. -/
def HashRingRouter.abortRing : HashRingRouter → HashRingRouter
  | .Single r => .Single r
  | .Resharding o _ => .Single o

/-- `ReplicaState` (the variants the sampled code uses). -/
inductive ReplicaState where
  | Active
  | Dead
  | Partial
  | Resharding
deriving DecidableEq

/-- Modelled from the spec: a replica set (`ShardReplicaSet` is outside
the sampled sources) is reduced to its peer-state map and whether this
peer hosts the local shard; point data is not represented, so
`cleanup_local_shard` is the identity on this model. -/
structure ReplicaSetM where
  peers : List (Nat × ReplicaState)
  is_local : Bool
deriving DecidableEq

/-- `ShardReplicaSet::peer_state`. -/
def ReplicaSetM.peerState (r : ReplicaSetM) (peer : Nat) : Option ReplicaState :=
  (r.peers.find? (fun pr => pr.1 = peer)).map (·.2)

/-- `ShardReplicaSet::set_replica_state` on the model. -/
def ReplicaSetM.setReplicaState (r : ReplicaSetM) (peer : Nat)
    (st : ReplicaState) : ReplicaSetM :=
  { r with peers := r.peers.map (fun pr => if pr.1 = peer then (pr.1, st) else pr) }

/-- `ShardReplicaSet::remove_peer` on the model. -/
def ReplicaSetM.removePeer (r : ReplicaSetM) (peer : Nat) : ReplicaSetM :=
  { r with peers := r.peers.filter (fun pr => pr.1 ≠ peer) }

/-- Revert every `Resharding` replica of a set back to `Active`
(the per-shard loop body of `abort_resharding` in the Down direction). -/
def ReplicaSetM.reshardingToActive (r : ReplicaSetM) : ReplicaSetM :=
  { r with peers := r.peers.map fun pr =>
      if pr.2 = ReplicaState.Resharding then (pr.1, ReplicaState.Active) else pr }

/-- The slice of `ShardHolder` state that the resharding operations
read and write. -/
structure ShardHolder where
  resharding_state : Option ReshardState
  rings : List (Option String × HashRingRouter)
  shards : List (Nat × ReplicaSetM)
  shard_id_to_key_mapping : List (Nat × String)
  key_mapping : List (String × List Nat)
deriving DecidableEq

/-- Association-list lookup for the ring of a shard key (`get_ring`). -/
def ShardHolder.getRing (h : ShardHolder) (key : Option String) :
    Option HashRingRouter :=
  (h.rings.find? (fun e => e.1 = key)).map (·.2)

/-- Pointwise replacement of the ring of a shard key. -/
def ShardHolder.setRing (h : ShardHolder) (key : Option String)
    (ring : HashRingRouter) : ShardHolder :=
  { h with rings := h.rings.map (fun e => if e.1 = key then (e.1, ring) else e) }

/-- `ShardHolder::get_shard`. -/
def ShardHolder.getShard (h : ShardHolder) (shard_id : Nat) : Option ReplicaSetM :=
  (h.shards.find? (fun e => e.1 = shard_id)).map (·.2)

/-- Pointwise replacement of one replica set. -/
def ShardHolder.setShard (h : ShardHolder) (shard_id : Nat)
    (r : ReplicaSetM) : ShardHolder :=
  { h with shards := h.shards.map (fun e => if e.1 = shard_id then (e.1, r) else e) }

/-- `ShardHolder::check_abort_resharding`: aborting is accepted when no
resharding is in progress, when another resharding is in progress, or
when the matching resharding has not committed its read hash ring yet;
it is rejected from `ReadHashRingCommitted` on. -/
def check_abort_resharding (h : ShardHolder) (key : ReshardKey) :
    Except String Unit :=
  match h.resharding_state with
  | none => Except.ok ()
  | some state =>
    if !(state.matches key) then
      Except.ok ()
    else if stageLt state.stage ReshardStage.ReadHashRingCommitted then
      Except.ok ()
    else
      Except.error "bad request: read hash ring has been committed already"

/-- The Down-direction cleanup loop of `abort_resharding`: for every
shard of the resharding shard key other than the target, revert
`Resharding` replicas to `Active` (the local point cleanup only touches
point data, which this model does not carry). -/
def abortDownCleanup (h : ShardHolder) (key : ReshardKey) : ShardHolder :=
  { h with shards := h.shards.map (fun e =>
      if ((h.shard_id_to_key_mapping.find? (fun m => m.1 = e.1)).map (·.2)
            = key.shard_key)
          && e.1 ≠ key.shard_id then
        (e.1, e.2.reshardingToActive)
      else e) }

/-- Remove `shard_id` from the key-mapping entry of `shard_key`
(the `key_mapping.write_optional` block of `abort_resharding`). -/
def removeFromKeyMapping (h : ShardHolder) (shard_key : Option String)
    (shard_id : Nat) : ShardHolder :=
  match shard_key with
  | none => h
  | some sk =>
    { h with key_mapping := h.key_mapping.map (fun e =>
        if e.1 = sk then (e.1, e.2.filter (fun i => i ≠ shard_id)) else e) }

/-- `ShardHolder::drop_and_remove_shard` plus the
`shard_id_to_key_mapping.remove` that follows it. -/
def dropShard (h : ShardHolder) (shard_id : Nat) : ShardHolder :=
  { h with
      shards := h.shards.filter (fun e => e.1 ≠ shard_id),
      shard_id_to_key_mapping :=
        h.shard_id_to_key_mapping.filter (fun e => e.1 ≠ shard_id) }

/-- The Up-direction trailer of `abort_resharding`: remove the new
replica (when it is in `Resharding` state, or `Dead` while this
resharding is in progress) and drop the whole replica set when it
becomes empty.  Errors keep the state mutated so far, as the Rust
`&mut self` method does. -/
def abortUpRemoveShard (h : ShardHolder) (key : ReshardKey)
    (is_in_progress : Bool) : Except String Unit × ShardHolder :=
  match h.getShard key.shard_id with
  | none => (Except.ok (), h)
  | some shard =>
    let removed : Except String Unit × ReplicaSetM :=
      match shard.peerState key.peer_id with
      | some ReplicaState.Resharding => (Except.ok (), shard.removePeer key.peer_id)
      | some ReplicaState.Dead =>
        if is_in_progress then (Except.ok (), shard.removePeer key.peer_id)
        else (Except.error "bad request: peer is in Dead state", shard)
      | some _ => (Except.error "bad request: peer is in unexpected state", shard)
      | none => (Except.ok (), shard)
    match removed with
    | (Except.error e, _) => (Except.error e, h)
    | (Except.ok (), shard') =>
      let h1 := h.setShard key.shard_id shard'
      if shard'.peers.isEmpty then
        (Except.ok (), dropShard (removeFromKeyMapping h1 key.shard_key key.shard_id)
          key.shard_id)
      else
        (Except.ok (), h1)

/-- `ShardHolder::abort_resharding`.  Returns the result together with
the (possibly partially mutated) holder, mirroring `&mut self` with
early returns. -/
def abort_resharding (h : ShardHolder) (key : ReshardKey) (force : Bool) :
    Except String Unit × ShardHolder :=
  let in_progress : Except String Bool :=
    match h.resharding_state with
    | some state =>
      if state.matches key then
        if !force && stageGe state.stage ReshardStage.ReadHashRingCommitted then
          Except.error "bad request: read hash ring has been committed already"
        else
          Except.ok true
      else
        Except.ok false
    | none => Except.ok false
  match in_progress with
  | Except.error e => (Except.error e, h)
  | Except.ok is_in_progress =>
    let h1 :=
      if is_in_progress && key.direction = ReshardingDirection.Down then
        abortDownCleanup h key
      else h
    let h2 :=
      match h1.getRing key.shard_key with
      | some ring => h1.setRing key.shard_key ring.abortRing
      | none => h1
    let afterUp :=
      if key.direction = ReshardingDirection.Up then
        abortUpRemoveShard h2 key is_in_progress
      else
        (Except.ok (), h2)
    match afterUp with
    | (Except.error e, h3) => (Except.error e, h3)
    | (Except.ok (), h3) =>
      if is_in_progress then
        (Except.ok (), { h3 with resharding_state := none })
      else
        (Except.ok (), h3)

/-- `check_stage`: the stage guard used by the commit operations. -/
def check_stage (stage : ReshardStage) (state : ReshardState) :
    Except String Unit :=
  if state.stage = stage then
    Except.ok ()
  else
    Except.error "bad request: unexpected resharding stage"

/-- `ShardHolder::check_resharding` specialised to the `check_stage`
guard used by both commit operations. -/
def check_resharding (h : ShardHolder) (key : ReshardKey)
    (stage : ReshardStage) : Except String Unit := do
  match h.getRing key.shard_key with
  | none => Except.error "bad request: hashring does not exist"
  | some _ =>
    match h.resharding_state with
    | some state =>
      if state.matches key then
        check_stage stage state
      else
        Except.error "bad request: another resharding is in progress"
    | none => Except.error "bad request: resharding is not in progress"

/-- `ShardHolder::commit_read_hashring`: requires the matching
resharding to be at `MigratingPoints` and advances it to
`ReadHashRingCommitted`. -/
def commit_read_hashring (h : ShardHolder) (key : ReshardKey) :
    Except String Unit × ShardHolder :=
  match check_resharding h key ReshardStage.MigratingPoints with
  | Except.error e => (Except.error e, h)
  | Except.ok () =>
    (Except.ok (), { h with resharding_state :=
      h.resharding_state.map (fun st => { st with stage := ReshardStage.ReadHashRingCommitted }) })

/-- `ShardHolder::commit_write_hashring`: requires the matching
resharding to be at `ReadHashRingCommitted`, commits the resharding
ring, and advances the stage to `WriteHashRingCommitted`. -/
def commit_write_hashring (h : ShardHolder) (key : ReshardKey) :
    Except String Unit × ShardHolder :=
  match check_resharding h key ReshardStage.ReadHashRingCommitted with
  | Except.error e => (Except.error e, h)
  | Except.ok () =>
    let h1 :=
      match h.getRing key.shard_key with
      | some ring => h.setRing key.shard_key ring.commitResharding
      | none => h
    (Except.ok (), { h1 with resharding_state :=
      h1.resharding_state.map (fun st => { st with stage := ReshardStage.WriteHashRingCommitted }) })

/-! ## Indexing optimizer (`indexing_optimizer.rs`) -/

/-- `SegmentType`. -/
inductive SegmentType where
  | Plain
  | Indexed
  | Special
deriving DecidableEq

/-- `Indexes`: the segment's vector index kind. -/
inductive Indexes where
  | Plain
  | Hnsw
deriving DecidableEq

/-- `PayloadIndexType` (`Plain` is its `Default`). -/
inductive PayloadIndexType where
  | Plain
  | Struct
deriving DecidableEq

/-- `StorageType`. -/
inductive StorageType where
  | InMemory
  | Mmap
deriving DecidableEq

/-- What `IndexingOptimizer::worst_segment` reads from one segment:
its type, vector count, configuration and indexed payload fields. -/
structure SegmentView where
  segment_type : SegmentType
  vectors_count : Nat
  index : Indexes
  payload_index : Option PayloadIndexType
  storage_type : StorageType
  indexed_fields : List String
deriving DecidableEq

/-- `OptimizerThresholds`. -/
structure OptimizerThresholds where
  memmap_threshold : Nat
  indexing_threshold : Nat
  payload_indexing_threshold : Nat
deriving DecidableEq

/-- The `require_indexing` predicate computed inside `worst_segment`
for a non-`Special` segment. -/
def require_indexing (th : OptimizerThresholds) (s : SegmentView) : Bool :=
  let is_vector_indexed :=
    match s.index with
    | Indexes.Plain => false
    | Indexes.Hnsw => true
  let is_payload_indexed :=
    match s.payload_index.getD PayloadIndexType.Plain with
    | PayloadIndexType.Plain => false
    | PayloadIndexType.Struct => true
  let is_memmaped :=
    match s.storage_type with
    | StorageType.InMemory => false
    | StorageType.Mmap => true
  let big_for_mmap := s.vectors_count ≥ th.memmap_threshold
  let big_for_index := s.vectors_count ≥ th.indexing_threshold
  let big_for_payload_index := s.vectors_count ≥ th.payload_indexing_threshold
  let has_payload := !s.indexed_fields.isEmpty
  (big_for_mmap && !is_memmaped) || (big_for_index && !is_vector_indexed)
    || (has_payload && big_for_payload_index && !is_payload_indexed)

/-- Rust `Iterator::max_by_key` on `(id, vector_count)` pairs: keeps the
last of several maxima. -/
def maxByCountLast (l : List (Nat × Nat)) : Option (Nat × Nat) :=
  l.foldl
    (fun acc x =>
      match acc with
      | none => some x
      | some best => if best.2 ≤ x.2 then some x else some best)
    none

/-- `IndexingOptimizer::worst_segment`: skip `Special` segments, keep
those requiring indexing, and pick the one with the largest vector
count. -/
def worst_segment (th : OptimizerThresholds) (segments : List (Nat × SegmentView)) :
    Option Nat :=
  let candidates := segments.filterMap fun e =>
    if e.2.segment_type = SegmentType.Special then none
    else if require_indexing th e.2 then some (e.1, e.2.vectors_count)
    else none
  (maxByCountLast candidates).map (·.1)

/-- `IndexingOptimizer::check_condition`: the singleton (or empty) list
around `worst_segment`. -/
def check_condition (th : OptimizerThresholds)
    (segments : List (Nat × SegmentView)) : List Nat :=
  match worst_segment th segments with
  | none => []
  | some segment_id => [segment_id]

/-! ## Query result merging (`collection/query.rs`) -/

/-- A scored point as the merger sees it: external id and score. -/
structure ScoredPoint where
  id : Nat
  score : Int
deriving DecidableEq

/-- `Order` of a scoring query (from the collection's metric). -/
inductive ScoreOrder where
  | LargeBetter
  | SmallBetter
deriving DecidableEq

/-- Modelled from the spec: `ScoredPointTies` (outside the sampled
sources) orders by score with ties broken by lower id; this is the
`kmerge_by` predicate "`a` comes before `b`" for each ordering. -/
def mergePred (ord : ScoreOrder) (a b : ScoredPoint) : Bool :=
  match ord with
  | ScoreOrder.LargeBetter => b.score < a.score || (a.score = b.score && a.id < b.id)
  | ScoreOrder.SmallBetter => a.score < b.score || (a.score = b.score && a.id < b.id)

/-- Two-way merge by a "comes before" predicate (`itertools` takes from
the left stream exactly when the predicate holds of the two heads). -/
def mergeBy (pred : ScoredPoint → ScoredPoint → Bool) :
    List ScoredPoint → List ScoredPoint → List ScoredPoint
  | [], ys => ys
  | xs, [] => xs
  | x :: xs, y :: ys =>
    if pred x y then x :: mergeBy pred xs (y :: ys)
    else y :: mergeBy pred (x :: xs) ys
  termination_by xs ys => xs.length + ys.length

/-- k-way merge of the per-shard streams (`kmerge_by`): since the
predicate is a strict total order on `(score, id)` and equal elements
are interchangeable, folding the two-way merge is extensionally the
heap-based merge. -/
def kmergeBy (pred : ScoredPoint → ScoredPoint → Bool)
    (lists : List (List ScoredPoint)) : List ScoredPoint :=
  lists.foldr (mergeBy pred) []

/-- Modelled from the spec: the point equality used by `.dedup()`
(`ScoredPoint`'s `PartialEq` is outside the sampled sources); the spec
describes the dedup as being by point id.  `itertools::dedup` removes
only consecutive equal elements, keeping the first of each run. -/
def dedupById : List ScoredPoint → List ScoredPoint
  | [] => []
  | [a] => [a]
  | a :: b :: rest =>
    if a.id = b.id then dedupById (a :: rest) else a :: dedupById (b :: rest)
  termination_by l => l.length

/-- The per-internal-query merge of `query_internal`: k-way merge under
the query's ordering, dedup, take. -/
def merge_shard_streams (ord : ScoreOrder) (shards_results : List (List ScoredPoint))
    (take : Nat) : List ScoredPoint :=
  (dedupById (kmergeBy (mergePred ord) shards_results)).take take

/-- The scoring query as far as the merger inspects it: an RRF fusion
or a query whose derived ordering is `ord` (the ordering derivation
`ScoringQuery::order` lives outside the sampled sources and is passed
through). -/
inductive ScoringQuery where
  | FusionRrf
  | Scored (ord : ScoreOrder)
deriving DecidableEq

/-- One prefetch of a `ShardQueryRequest`: its derived ordering and its
limit. -/
structure PrefetchInfo where
  ord : ScoreOrder
  limit : Nat
deriving DecidableEq

/-- The slice of `ShardQueryRequest` the coordinator merge reads. -/
structure ShardQueryRequest where
  query : Option ScoringQuery
  prefetches : List PrefetchInfo
  root_ord : ScoreOrder
  offset : Nat
  limit : Nat
deriving DecidableEq

/-- `intermediate_query_infos`: for an RRF fusion root, one entry per
prefetch taking the prefetch's limit; otherwise the single root entry
taking `offset + limit`.  (The ordering of a prefetch or of the root is
the one `ScoringQuery::order` derives.) -/
def intermediate_query_infos (req : ShardQueryRequest) : List (ScoreOrder × Nat) :=
  match req.query with
  | some ScoringQuery.FusionRrf => req.prefetches.map fun p => (p.ord, p.limit)
  | _ => [(req.root_ord, req.offset + req.limit)]

/-- Modelled from the spec: the matrix transpose of
`transposed_iter` (its module is outside the sampled sources) — the
`i`-th output row collects the `i`-th entry of every shard's response,
for the per-query indices of the first shard. -/
def transposeResults {α : Type} (m : List (List α)) : List (List α) :=
  match m with
  | [] => []
  | r :: _ => (List.range r.length).map fun i => m.filterMap fun row => row[i]?

/-- The merging part of `Collection::query_internal`: transpose the
per-shard responses into per-query columns and merge each column under
its query's ordering. -/
def query_internal (req : ShardQueryRequest)
    (all_shards_results : List (List (List ScoredPoint))) :
    List (List ScoredPoint) :=
  ((intermediate_query_infos req).zip (transposeResults all_shards_results)).map
    fun qc => merge_shard_streams qc.1.1 qc.2 qc.1.2

/-! ## Shard transfer helpers (`transfer/shard_transfer.rs`) -/

/-- Total replica count per peer over a shard distribution
(the `peer_loads` accumulation). -/
def peerLoad (shard_distribution : List (Nat × List Nat)) (peer : Nat) : Nat :=
  (shard_distribution.map (fun e => e.2.countP (fun p => p = peer))).sum

/-- The comparator `suggest_peer_to_remove_replica` sorts candidates
with: `Active` compares below everything non-`Active`, and within a
class more-loaded peers compare below. -/
def removeCandCmp (a b : Nat × ReplicaState × Nat) : Ordering :=
  match a.2.1, b.2.1 with
  | ReplicaState.Active, ReplicaState.Active => compare b.2.2 a.2.2
  | ReplicaState.Active, _ => Ordering.lt
  | _, ReplicaState.Active => Ordering.gt
  | _, _ => compare b.2.2 a.2.2

/-- Insertion into a list sorted by `removeCandCmp` (model of
`sort_unstable_by`). -/
def insertByCmp (c : Nat × ReplicaState × Nat) :
    List (Nat × ReplicaState × Nat) → List (Nat × ReplicaState × Nat)
  | [] => [c]
  | x :: xs =>
    if removeCandCmp c x ≠ Ordering.gt then c :: x :: xs else x :: insertByCmp c xs

/-- Sort candidates by `removeCandCmp`. -/
def sortByCmp (l : List (Nat × ReplicaState × Nat)) :
    List (Nat × ReplicaState × Nat) :=
  l.foldr insertByCmp []

/-- `suggest_peer_to_remove_replica`: build `(peer, state, load)`
candidates, sort them with `removeCandCmp`, return the first. -/
def suggest_peer_to_remove_replica (shard_distribution : List (Nat × List Nat))
    (shard_peers : List (Nat × ReplicaState)) : Option Nat :=
  let candidates := shard_peers.map fun pr =>
    (pr.1, pr.2, peerLoad shard_distribution pr.1)
  ((sortByCmp candidates).head?).map (·.1)

/-- `MAX_RETRY_COUNT`. -/
def maxRetryCount : Nat := 3

/-- `RETRY_TIMEOUT` in milliseconds. -/
def retryTimeoutMs : Nat := 1000

/-- Outcome of one `transfer_shard` attempt. -/
inductive TransferOutcome where
  | ok
  | cancelled
  | failed
deriving DecidableEq

/-- The retry loop of `spawn_transfer_task`.  `attempt n` is the
outcome of the `n`-th `transfer_shard` call and `stopped n` the stop
flag observed right after it; the result is the task's return value,
the number of attempts made, and the list of back-off sleeps (in
milliseconds) performed between attempts.  A `Cancelled` outcome
returns immediately; otherwise a failed attempt decrements `tries`,
sleeps `RETRY_TIMEOUT * (MAX_RETRY_COUNT - tries)` and retries while
`tries > 0`. -/
def transferLoopGo (attempt : Nat → TransferOutcome) (stopped : Nat → Bool) :
    Nat → Nat → List Nat → Bool × Nat × List Nat
  | 0, n, sleeps => (false, n, sleeps)
  | Nat.succ tries, n, sleeps =>
    match attempt n with
    | TransferOutcome.cancelled => (false, n + 1, sleeps)
    | TransferOutcome.ok =>
      if stopped n then (false, n + 1, sleeps) else (true, n + 1, sleeps)
    | TransferOutcome.failed =>
      if stopped n then (false, n + 1, sleeps)
      else
        transferLoopGo attempt stopped tries (n + 1)
          (sleeps ++ [retryTimeoutMs * (maxRetryCount - tries)])

/-- `spawn_transfer_task`'s loop from its initial state. -/
def spawn_transfer_task (attempt : Nat → TransferOutcome) (stopped : Nat → Bool) :
    Bool × Nat × List Nat :=
  transferLoopGo attempt stopped maxRetryCount 0 []

/-- The batch loop of `transfer_batches`: the stop flag is read at the
top of every iteration and aborts the transfer with a `Cancelled`
error; `batches` is how many batches return a continuation offset
before the source is exhausted, `n` numbers the iterations. -/
def transferBatchesGo (stopped : Nat → Bool) : Nat → Nat → Except String Unit
  | batches, n =>
    if stopped n then Except.error "Transfer cancelled"
    else
      match batches with
      | 0 => Except.ok ()
      | Nat.succ b => transferBatchesGo stopped b (n + 1)

/-- `transfer_batches`' streaming loop from its first batch. -/
def transfer_batches (stopped : Nat → Bool) (batches : Nat) : Except String Unit :=
  transferBatchesGo stopped batches 0

/-! ## Payload condition checkers (`condition_checker.rs`) -/

/-- JSON values (`serde_json::Value`); numbers are modelled as
rationals. -/
inductive JsonValue where
  | null
  | bool (b : Bool)
  | num (q : ℚ)
  | str (s : String)
  | arr (items : List JsonValue)
  | obj (fields : List (String × JsonValue))

/-- `Number::as_f64`: every modelled number is representable. -/
def JsonValue.asF64 : JsonValue → Option ℚ
  | .num q => some q
  | _ => none

/-- `Number::as_i64`: defined exactly on integral numbers. -/
def JsonValue.asI64 : JsonValue → Option Int
  | .num q => if q.den = 1 then some q.num else none
  | _ => none

/-- `ValueChecker::check`: a JSON array matches when some element
matches; any other value is checked directly. -/
def checkValue (check_match : JsonValue → Bool) : JsonValue → Bool
  | .arr values => values.any check_match
  | payload => check_match payload

/-- `MatchKeyword`. -/
structure MatchKeyword where
  keyword : String

/-- `MatchKeyword::check_match`: only a JSON string equal to the
keyword matches. -/
def MatchKeyword.check_match (m : MatchKeyword) : JsonValue → Bool
  | .str keyword => m.keyword = keyword
  | _ => false

/-- `MatchInteger`. -/
structure MatchInteger where
  integer : Int

/-- `MatchInteger::check_match`: only a JSON number convertible to an
integer equal to the target matches. -/
def MatchInteger.check_match (m : MatchInteger) (v : JsonValue) : Bool :=
  match v with
  | .num _ => ((v.asI64).map (fun x => decide (x = m.integer))).getD false
  | _ => false

/-- Modelled from the spec: the body of `Range::check_range` is outside
the sampled sources; a numeric range keeps every bound that is present
(`lt`, `gt`, `gte`, `lte`). -/
structure RangeCond where
  lt : Option ℚ
  gt : Option ℚ
  gte : Option ℚ
  lte : Option ℚ

/-- Modelled from the spec: all present bounds must hold of the
number. -/
def RangeCond.check_range (r : RangeCond) (x : ℚ) : Bool :=
  ((r.lt.map (fun b => decide (x < b))).getD true)
    && ((r.gt.map (fun b => decide (b < x))).getD true)
    && ((r.gte.map (fun b => decide (b ≤ x))).getD true)
    && ((r.lte.map (fun b => decide (x ≤ b))).getD true)

/-- `Range::check_match`: only a JSON number within the range
matches. -/
def RangeCond.check_match (r : RangeCond) (v : JsonValue) : Bool :=
  match v with
  | .num _ => ((v.asF64).map r.check_range).getD false
  | _ => false

/-- Modelled from the spec: the geometric test of `GeoBoundingBox` and
`GeoRadius` (`check_point`, outside the sampled sources) is an abstract
predicate on a `(lon, lat)` pair; its `check_match` dispatch below is
from the source. -/
structure GeoCond where
  check_point : ℚ → ℚ → Bool

/-- `GeoBoundingBox::check_match` / `GeoRadius::check_match`: only a
JSON object with numeric `lon` and `lat` fields can match, via
`check_point`. -/
def GeoCond.check_match (g : GeoCond) (v : JsonValue) : Bool :=
  match v with
  | .obj fields =>
    let lon_op := ((fields.find? (fun f => f.1 = "lon")).map (·.2)).bind JsonValue.asF64
    let lat_op := ((fields.find? (fun f => f.1 = "lat")).map (·.2)).bind JsonValue.asF64
    match lon_op, lat_op with
    | some lon, some lat => g.check_point lon lat
    | _, _ => false
  | _ => false

/-! ## Concrete fixtures used by the counterexamples -/

/-- A three-point symmetric similarity table: points 1 and 2 are the
closest pair (20), then 0 and 1 (10), then 0 and 2 (5). -/
def cexScore : Nat → Nat → Int
  | 0, 1 => 10
  | 1, 0 => 10
  | 1, 2 => 20
  | 2, 1 => 20
  | 0, 2 => 5
  | 2, 0 => 5
  | _, _ => 0

/-- Insertion trace for the symmetry counterexample: point 0 enters as
the first entry point (no linking), point 1 finds 0, point 2 finds both
earlier points best-first — exactly what the beam search returns with an
ample `ef_construct` on this connected graph. -/
def cexOps : List LinkOp :=
  [⟨1, 0, [⟨0, 10⟩]⟩, ⟨2, 0, [⟨1, 20⟩, ⟨0, 5⟩]⟩]

/-- A root (non-fusion) query with `offset = 0`, `limit = 3` under
`LargeBetter` ordering. -/
def cexReq : ShardQueryRequest :=
  { query := none, prefetches := [], root_ord := ScoreOrder.LargeBetter,
    offset := 0, limit := 3 }

/-- A shard stream is sorted for its query when no later element
strictly precedes an earlier one under the derived ordering. -/
def sortedByOrd (ord : ScoreOrder) (l : List ScoredPoint) : Prop :=
  l.Pairwise (fun a b => mergePred ord b a = false)

instance (ord : ScoreOrder) (l : List ScoredPoint) :
    Decidable (sortedByOrd ord l) := by
  unfold sortedByOrd
  infer_instance

/-! ## HNSW heuristic selection theorems (C3) -/

/-- Once the result list is full, the selection returns it
unchanged. -/
theorem select_of_full (score_internal : Nat → Nat → Int) (m : Nat)
    (cands : List ScoredPointOffset) (acc : List Nat) (h : acc.length ≥ m) :
    select_candidate_with_heuristic_from_sorted score_internal m cands acc = acc := by
  cases cands with
  | nil => rfl
  | cons c rest =>
    rw [select_candidate_with_heuristic_from_sorted, if_pos h]

/-- The selection never grows the result list beyond `m`. -/
theorem select_length_le (score_internal : Nat → Nat → Int) (m : Nat) :
    ∀ (cands : List ScoredPointOffset) (acc : List Nat), acc.length ≤ m →
      (select_candidate_with_heuristic_from_sorted score_internal m cands acc).length ≤ m := by
  intro cands
  induction cands with
  | nil => intro acc h; exact h
  | cons c rest ih =>
    intro acc h
    rw [select_candidate_with_heuristic_from_sorted]
    by_cases hfull : acc.length ≥ m
    · rw [if_pos hfull]; exact h
    · rw [if_neg hfull]
      by_cases hgood : acc.all (fun s => !(score_internal c.idx s > c.score)) = true
      · rw [if_pos hgood]
        refine ih _ ?_
        simp only [List.length_append, List.length_cons, List.length_nil]
        omega
      · rw [if_neg hgood]
        exact ih _ h

/-- Processing a concatenation of candidate lists processes them in
sequence (the early break commutes with splitting, because a full
result list stays put). -/
theorem select_append (score_internal : Nat → Nat → Int) (m : Nat) :
    ∀ (xs ys : List ScoredPointOffset) (acc : List Nat),
      select_candidate_with_heuristic_from_sorted score_internal m (xs ++ ys) acc =
        select_candidate_with_heuristic_from_sorted score_internal m ys
          (select_candidate_with_heuristic_from_sorted score_internal m xs acc) := by
  intro xs
  induction xs with
  | nil => intro ys acc; rfl
  | cons c rest ih =>
    intro ys acc
    rw [List.cons_append, select_candidate_with_heuristic_from_sorted,
      select_candidate_with_heuristic_from_sorted]
    by_cases hfull : acc.length ≥ m
    · rw [if_pos hfull, if_pos hfull, select_of_full _ _ _ _ hfull]
    · rw [if_neg hfull, if_neg hfull]
      by_cases hgood : acc.all (fun s => !(score_internal c.idx s > c.score)) = true
      · rw [if_pos hgood, if_pos hgood, ih]
      · rw [if_neg hgood, if_neg hgood, ih]

/-- The selection appends accepted candidate ids, in candidate
order. -/
theorem select_sublist (score_internal : Nat → Nat → Int) (m : Nat) :
    ∀ (cands : List ScoredPointOffset) (acc : List Nat),
      ∃ t, select_candidate_with_heuristic_from_sorted score_internal m cands acc =
        acc ++ t ∧ t.Sublist (cands.map ScoredPointOffset.idx) := by
  intro cands
  induction cands with
  | nil =>
    intro acc
    exact ⟨[], by simp [select_candidate_with_heuristic_from_sorted], by simp⟩
  | cons c rest ih =>
    intro acc
    rw [select_candidate_with_heuristic_from_sorted]
    by_cases hfull : acc.length ≥ m
    · rw [if_pos hfull]
      exact ⟨[], by simp, by simp⟩
    · rw [if_neg hfull]
      by_cases hgood : acc.all (fun s => !(score_internal c.idx s > c.score)) = true
      · rw [if_pos hgood]
        obtain ⟨t, ht, hsub⟩ := ih (acc ++ [c.idx])
        refine ⟨c.idx :: t, ?_, ?_⟩
        · rw [ht]
          simp
        · simpa using hsub.cons₂ c.idx
      · rw [if_neg hgood]
        obtain ⟨t, ht, hsub⟩ := ih acc
        exact ⟨t, ht, hsub.cons c.idx⟩

/-- C3 (amended): the heuristic selection keeps at most `m` candidates,
emits them in candidate order, and — walking the sorted candidates — a
candidate is accepted exactly when fewer than `m` candidates are
accepted so far and no already-accepted neighbour scores higher against
it than its own score against the inserted point. -/
theorem select_candidate_heuristic_characterization
    (score_internal : Nat → Nat → Int) (m : Nat) :
    (∀ (cands : List ScoredPointOffset) (acc : List Nat), acc.length ≤ m →
      (select_candidate_with_heuristic_from_sorted score_internal m cands acc).length ≤ m) ∧
    (∀ (cands : List ScoredPointOffset) (acc : List Nat),
      ∃ t, select_candidate_with_heuristic_from_sorted score_internal m cands acc =
        acc ++ t ∧ t.Sublist (cands.map ScoredPointOffset.idx)) ∧
    (∀ (pre : List ScoredPointOffset) (c : ScoredPointOffset)
        (post : List ScoredPointOffset),
      select_candidate_with_heuristic_from_sorted score_internal m (pre ++ c :: post) [] =
        if (select_candidate_with_heuristic_from_sorted score_internal m pre []).length ≥ m
        then select_candidate_with_heuristic_from_sorted score_internal m pre []
        else if ∀ s ∈ select_candidate_with_heuristic_from_sorted score_internal m pre [],
            ¬ score_internal c.idx s > c.score then
          select_candidate_with_heuristic_from_sorted score_internal m post
            (select_candidate_with_heuristic_from_sorted score_internal m pre [] ++ [c.idx])
        else
          select_candidate_with_heuristic_from_sorted score_internal m post
            (select_candidate_with_heuristic_from_sorted score_internal m pre [])) := by
  refine ⟨select_length_le score_internal m, select_sublist score_internal m, ?_⟩
  intro pre c post
  rw [select_append, select_candidate_with_heuristic_from_sorted]
  by_cases hfull :
      (select_candidate_with_heuristic_from_sorted score_internal m pre []).length ≥ m
  · rw [if_pos hfull, if_pos hfull]
  · rw [if_neg hfull, if_neg hfull]
    by_cases hgood :
        (select_candidate_with_heuristic_from_sorted score_internal m pre []).all
          (fun s => !(score_internal c.idx s > c.score)) = true
    · rw [if_pos hgood,
        if_pos (by simpa using hgood :
          ∀ s ∈ select_candidate_with_heuristic_from_sorted score_internal m pre [],
            ¬ score_internal c.idx s > c.score)]
    · rw [if_neg hgood,
        if_neg (by simpa using hgood :
          ¬ ∀ s ∈ select_candidate_with_heuristic_from_sorted score_internal m pre [],
            ¬ score_internal c.idx s > c.score)]

/-- Witness for C3 at concrete inputs: selecting with `m = 2` from one
candidate keeps at most two. -/
theorem select_candidate_heuristic_characterization_witness :
    (select_candidate_with_heuristic_from_sorted (fun _ _ => 0) 2
      [⟨5, 3⟩] []).length ≤ 2 :=
  (select_candidate_heuristic_characterization (fun _ _ => 0) 2).1 [⟨5, 3⟩] []
    (by decide)

/-- C3 counterexample: with `m = 1`, candidates `0` (score 10) and `1`
(score 9), and all pairwise scores 0, candidate `1` passes the
"no already-accepted neighbour is closer" test (its only accepted
neighbour scores 0 ≤ 9 against it) yet is rejected because the `m`
bound is already reached, so acceptance is not equivalent to the
heuristic test alone. -/
theorem select_candidate_heuristic_iff_fails :
    select_candidate_with_heuristic_from_sorted (fun _ _ => 0) 1
      [⟨0, 10⟩, ⟨1, 9⟩] [] = [0] ∧
    (∀ s ∈ select_candidate_with_heuristic_from_sorted (fun _ _ => 0) 1
      [⟨0, 10⟩, ⟨1, 9⟩] [], ¬ ((0 : Int) > 9)) ∧
    1 ∉ select_candidate_with_heuristic_from_sorted (fun _ _ => 0) 1
      [⟨0, 10⟩, ⟨1, 9⟩] [] := by
  decide

/-! ## HNSW fan-out bound theorems (C4) -/

/-- Insert-or-replace at an index within the list's range keeps a list
at the fan-out bound. -/
theorem insert_pop_length_le (links : List Nat) (i x level_m : Nat)
    (hi : i ≤ links.length) (h : links.length ≤ level_m) :
    (if links.length < level_m then links.insertIdx i x
      else if i ≠ links.length then links.dropLast.insertIdx i x
      else links).length ≤ level_m := by
  by_cases hlt : links.length < level_m
  · rw [if_pos hlt, List.length_insertIdx _ _ hi]
    omega
  · rw [if_neg hlt]
    by_cases hne : i ≠ links.length
    · rw [if_pos hne]
      have hi' : i ≤ links.dropLast.length := by
        rw [List.length_dropLast]
        omega
      rw [List.length_insertIdx _ _ hi', List.length_dropLast]
      omega
    · rw [if_neg hne]
      exact h

/-- `connect_new_point` keeps a bounded list bounded. -/
theorem connect_new_point_length_le (score_internal : Nat → Nat → Int)
    (links : List Nat) (a b level_m : Nat) (h : links.length ≤ level_m) :
    (connect_new_point score_internal links a b level_m).length ≤ level_m := by
  simp only [connect_new_point]
  exact insert_pop_length_le links _ a level_m (List.findIdx_le_length _) h

/-- The back-link update of the heuristic branch keeps a bounded list
bounded. -/
theorem update_neighbour_links_length_le (score_internal : Nat → Nat → Int)
    (level_m point_id other_point : Nat) (links : List Nat)
    (_h : links.length ≤ level_m) :
    (update_neighbour_links score_internal level_m point_id other_point links).length
      ≤ level_m := by
  simp only [update_neighbour_links]
  by_cases hlt : links.length < level_m
  · rw [if_pos hlt]
    simp only [List.length_append, List.length_cons, List.length_nil]
    omega
  · rw [if_neg hlt]
    exact select_length_le _ _ _ [] (Nat.zero_le _)

/-- A fold of pointwise link updates preserves a pointwise length
bound. -/
theorem foldl_updLinks_length_le (level_m : Nat) (f : Nat → List Nat → List Nat)
    (hf : ∀ q l, l.length ≤ level_m → (f q l).length ≤ level_m) :
    ∀ (sel : List Nat) (st : Nat → List Nat),
      (∀ q, (st q).length ≤ level_m) →
      ∀ q, ((sel.foldl (fun st q => updLinks st q (f q (st q))) st) q).length ≤ level_m := by
  intro sel
  induction sel with
  | nil => intro st h q; exact h q
  | cons a rest ih =>
    intro st h q
    rw [List.foldl_cons]
    refine ih _ ?_ q
    intro r
    unfold updLinks
    by_cases hr : r = a
    · rw [if_pos hr]
      exact hf a _ (h a)
    · rw [if_neg hr]
      exact h r

/-- The heuristic per-level linking keeps every link list at the
fan-out bound. -/
theorem link_on_level_heuristic_length_le (score_internal : Nat → Nat → Int)
    (level_m point_id : Nat) (nearest_points : List ScoredPointOffset)
    (links : Nat → List Nat) (h : ∀ q, (links q).length ≤ level_m) :
    ∀ q, (link_on_level_heuristic score_internal level_m point_id nearest_points
      links q).length ≤ level_m := by
  intro q
  simp only [link_on_level_heuristic]
  refine foldl_updLinks_length_le level_m _
    (fun r l hl => update_neighbour_links_length_le score_internal level_m point_id r l hl)
    _ _ ?_ q
  intro r
  unfold updLinks
  by_cases hr : r = point_id
  · rw [if_pos hr]
    exact select_length_le _ _ _ [] (Nat.zero_le _)
  · rw [if_neg hr]
    exact h r

/-- The non-heuristic per-level linking keeps every link list at the
fan-out bound. -/
theorem link_on_level_simple_length_le (score_internal : Nat → Nat → Int)
    (level_m point_id : Nat) :
    ∀ (nearest_points : List ScoredPointOffset) (links : Nat → List Nat),
      (∀ q, (links q).length ≤ level_m) →
      ∀ q, (link_on_level_simple score_internal level_m point_id nearest_points
        links q).length ≤ level_m := by
  intro nearest_points
  induction nearest_points with
  | nil => intro links h q; exact h q
  | cons np rest ih =>
    intro links h q
    simp only [link_on_level_simple, List.foldl_cons]
    refine ih _ ?_ q
    intro r
    unfold updLinks
    by_cases hr2 : r = np.idx
    · rw [if_pos hr2]
      refine connect_new_point_length_le _ _ _ _ _ ?_
      by_cases hr1 : np.idx = point_id
      · rw [if_pos hr1]
        exact connect_new_point_length_le _ _ _ _ _ (h point_id)
      · rw [if_neg hr1]
        exact h np.idx
    · rw [if_neg hr2]
      by_cases hr1 : r = point_id
      · rw [if_pos hr1]
        exact connect_new_point_length_le _ _ _ _ _ (h point_id)
      · rw [if_neg hr1]
        exact h r

/-- One linking step preserves the per-level fan-out bounds. -/
theorem apply_link_op_length_le (use_heuristic : Bool)
    (score_internal : Nat → Nat → Int) (m m0 : Nat) (st : LinksTable) (op : LinkOp)
    (h : ∀ p l, (st p l).length ≤ get_m m m0 l) :
    ∀ p l, (apply_link_op use_heuristic score_internal m m0 st op p l).length ≤
      get_m m m0 l := by
  intro p l
  simp only [apply_link_op]
  by_cases hl : l = op.level
  · rw [if_pos hl]
    subst hl
    cases use_heuristic with
    | true =>
      rw [if_pos rfl]
      exact link_on_level_heuristic_length_le _ _ _ _ _ (fun q => h q op.level) p
    | false =>
      rw [if_neg (by simp)]
      exact link_on_level_simple_length_le _ _ _ _ _ (fun q => h q op.level) p
  · rw [if_neg hl]
    exact h p l

/-- C4: after any sequence of `link_new_point` linking steps — with the
heuristic enabled or disabled, and for every possible beam-search
outcome — every link list at level 0 has length at most `m0` and every
link list at a level greater than 0 has length at most `m`. -/
theorem link_lists_bounded (use_heuristic : Bool)
    (score_internal : Nat → Nat → Int) (m m0 : Nat) (ops : List LinkOp) :
    (∀ p, (apply_link_trace use_heuristic score_internal m m0 ops emptyLinks
      p 0).length ≤ m0) ∧
    (∀ p l, 0 < l →
      (apply_link_trace use_heuristic score_internal m m0 ops emptyLinks
        p l).length ≤ m) := by
  have main : ∀ (ops : List LinkOp) (st : LinksTable),
      (∀ p l, (st p l).length ≤ get_m m m0 l) →
      ∀ p l, (apply_link_trace use_heuristic score_internal m m0 ops st p l).length ≤
        get_m m m0 l := by
    intro ops
    induction ops with
    | nil => intro st h; exact h
    | cons op rest ih =>
      intro st h
      exact ih _ (apply_link_op_length_le use_heuristic score_internal m m0 st op h)
  have base : ∀ p l, ((emptyLinks : LinksTable) p l).length ≤ get_m m m0 l :=
    fun _ _ => Nat.zero_le _
  have h := main ops emptyLinks base
  constructor
  · intro p
    simpa [get_m] using h p 0
  · intro p l hl
    have := h p l
    rwa [get_m, if_neg (by omega)] at this

/-- Witness for C4 at a concrete trace: after the two insertions of the
fixture trace with `m = m0 = 1`, point 1's level-1 list is within the
bound. -/
theorem link_lists_bounded_witness :
    (apply_link_trace true cexScore 1 1 cexOps emptyLinks 1 1).length ≤ 1 :=
  (link_lists_bounded true cexScore 1 1 cexOps).2 1 1 (by decide)

/-! ## HNSW link symmetry theorems (C5) -/

/-- A fold of pointwise link updates leaves untouched every point not
in the update list. -/
theorem foldl_updLinks_eq_of_notMem (f : Nat → List Nat → List Nat) :
    ∀ (sel : List Nat) (st : Nat → List Nat) (p : Nat), p ∉ sel →
      (sel.foldl (fun st q => updLinks st q (f q (st q))) st) p = st p := by
  intro sel
  induction sel with
  | nil => intro st p _; rfl
  | cons a rest ih =>
    intro st p hp
    rw [List.foldl_cons, ih _ p (fun h => hp (List.mem_cons_of_mem a h))]
    unfold updLinks
    rw [if_neg (fun h => hp (by rw [h]; exact List.mem_cons_self a rest))]

/-- A fold of pointwise link updates over a duplicate-free list applies
exactly one update to each listed point. -/
theorem foldl_updLinks_eq_of_mem (f : Nat → List Nat → List Nat) :
    ∀ (sel : List Nat) (st : Nat → List Nat) (q : Nat), sel.Nodup → q ∈ sel →
      (sel.foldl (fun st r => updLinks st r (f r (st r))) st) q = f q (st q) := by
  intro sel
  induction sel with
  | nil => intro st q _ hq; cases hq
  | cons a rest ih =>
    intro st q hnodup hq
    have ha : a ∉ rest := (List.nodup_cons.mp hnodup).1
    rw [List.foldl_cons]
    rcases List.mem_cons.mp hq with rfl | hmem
    · rw [foldl_updLinks_eq_of_notMem f rest _ q ha]
      unfold updLinks
      rw [if_pos rfl]
    · have hqa : q ≠ a := fun h => ha (by rw [← h]; exact hmem)
      rw [ih _ q (List.nodup_cons.mp hnodup).2 hmem]
      unfold updLinks
      rw [if_neg hqa]

/-- C5 (amended): inserting `point_id` with the heuristic makes the
edge to a selected neighbour `q` symmetric whenever `q`'s list was
still below the level fan-out (and the selection does not contain
duplicates or the point itself): afterwards `q` is in `point_id`'s
list and `point_id` is in `q`'s list.  When `q`'s list is full, the
overflow re-selection may drop `point_id` or an existing back-link, so
symmetry does not hold globally (see the counterexample). -/
theorem link_heuristic_local_symmetry (score_internal : Nat → Nat → Int)
    (level_m point_id : Nat) (nearest_points : List ScoredPointOffset)
    (links : Nat → List Nat) (q : Nat)
    (hnodup : (select_candidate_with_heuristic_from_sorted score_internal level_m
      nearest_points []).Nodup)
    (hself : point_id ∉ select_candidate_with_heuristic_from_sorted score_internal
      level_m nearest_points [])
    (hq : q ∈ select_candidate_with_heuristic_from_sorted score_internal level_m
      nearest_points [])
    (hroom : (links q).length < level_m) :
    q ∈ link_on_level_heuristic score_internal level_m point_id nearest_points
      links point_id ∧
    point_id ∈ link_on_level_heuristic score_internal level_m point_id
      nearest_points links q := by
  have hqp : q ≠ point_id := fun h => hself (by rw [← h]; exact hq)
  constructor
  · simp only [link_on_level_heuristic]
    rw [foldl_updLinks_eq_of_notMem _ _ _ point_id hself]
    unfold updLinks
    rw [if_pos rfl]
    exact hq
  · simp only [link_on_level_heuristic]
    rw [foldl_updLinks_eq_of_mem _ _ _ q hnodup hq]
    have hst0 : updLinks links point_id
        (select_candidate_with_heuristic_from_sorted score_internal level_m
          nearest_points []) q = links q := by
      unfold updLinks
      rw [if_neg hqp]
    rw [hst0]
    unfold update_neighbour_links
    rw [if_pos hroom]
    exact List.mem_append_right _ (List.mem_singleton_self _)

/-- Witness for C5's amended statement at concrete inputs: inserting
point 7 with single selected neighbour 3 whose list is empty creates
both directions of the edge. -/
theorem link_heuristic_local_symmetry_witness :
    3 ∈ link_on_level_heuristic (fun _ _ => 0) 2 7 [⟨3, 5⟩] (fun _ => []) 7 ∧
    7 ∈ link_on_level_heuristic (fun _ _ => 0) 2 7 [⟨3, 5⟩] (fun _ => []) 3 :=
  link_heuristic_local_symmetry (fun _ _ => 0) 2 7 [⟨3, 5⟩] (fun _ => []) 3
    (by decide) (by decide) (by decide) (by decide)

/-- C5 counterexample: building the three-point fixture with the
heuristic enabled (`m = m0 = 1`) leaves point 0 linking to point 1
while point 1's overflowed list was re-selected to `[2]`, so the edge
0–1 is asymmetric: links are not symmetric after construction under
heuristic selection. -/
theorem link_symmetry_fails :
    1 ∈ apply_link_trace true cexScore 1 1 cexOps emptyLinks 0 0 ∧
    0 ∉ apply_link_trace true cexScore 1 1 cexOps emptyLinks 1 0 := by
  decide

/-! ## Resharding theorems (C1, C2) -/

/-- C1: once the matching resharding has reached `ReadHashRingCommitted`
or later, `abort_resharding` without force returns a BadRequest error
and leaves the whole shard-holder state (in particular the resharding
state, its stage, and the hash rings) unchanged; when the matching
resharding is still at `MigratingPoints`, or no resharding or a
different resharding is in progress, `check_abort_resharding`
succeeds. -/
theorem abort_resharding_guard (h : ShardHolder) (key : ReshardKey) :
    (∀ st, h.resharding_state = some st → st.matches key = true →
      stageGe st.stage ReshardStage.ReadHashRingCommitted = true →
      (abort_resharding h key false).1 =
        Except.error "bad request: read hash ring has been committed already" ∧
      (abort_resharding h key false).2 = h) ∧
    (h.resharding_state = none → check_abort_resharding h key = Except.ok ()) ∧
    (∀ st, h.resharding_state = some st → st.matches key = false →
      check_abort_resharding h key = Except.ok ()) ∧
    (∀ st, h.resharding_state = some st → st.matches key = true →
      st.stage = ReshardStage.MigratingPoints →
      check_abort_resharding h key = Except.ok ()) := by
  refine ⟨?_, ?_, ?_, ?_⟩
  · intro st hst hm hge
    have hlt : (!false && stageGe st.stage ReshardStage.ReadHashRingCommitted) = true := by
      simp [hge]
    constructor <;> simp [abort_resharding, hst, hm, hge]
  · intro hst
    simp [check_abort_resharding, hst]
  · intro st hst hm
    simp [check_abort_resharding, hst, hm]
  · intro st hst hm hstage
    simp [check_abort_resharding, hst, hm, hstage, stageLt, ReshardStage.rank]

/-- Witness for C1 at a concrete holder: a matching resharding at
`ReadHashRingCommitted` is refused without force and the holder is
untouched. -/
theorem abort_resharding_guard_witness :
    (abort_resharding
      { resharding_state := some ⟨ReshardingDirection.Up, 7, 3, none,
          ReshardStage.ReadHashRingCommitted⟩,
        rings := [(none, HashRingRouter.Resharding [1, 2] [1, 2, 3])],
        shards := [], shard_id_to_key_mapping := [], key_mapping := [] }
      ⟨ReshardingDirection.Up, 7, 3, none⟩ false).1 =
      Except.error "bad request: read hash ring has been committed already" ∧
    (abort_resharding
      { resharding_state := some ⟨ReshardingDirection.Up, 7, 3, none,
          ReshardStage.ReadHashRingCommitted⟩,
        rings := [(none, HashRingRouter.Resharding [1, 2] [1, 2, 3])],
        shards := [], shard_id_to_key_mapping := [], key_mapping := [] }
      ⟨ReshardingDirection.Up, 7, 3, none⟩ false).2 =
      { resharding_state := some ⟨ReshardingDirection.Up, 7, 3, none,
          ReshardStage.ReadHashRingCommitted⟩,
        rings := [(none, HashRingRouter.Resharding [1, 2] [1, 2, 3])],
        shards := [], shard_id_to_key_mapping := [], key_mapping := [] } :=
  (abort_resharding_guard _ _).1 _ rfl (by decide) (by decide)

/-- The success characterization of `check_resharding`: the ring must
exist and the matching resharding must be at the expected stage. -/
theorem check_resharding_ok_iff (h : ShardHolder) (key : ReshardKey)
    (stage : ReshardStage) :
    check_resharding h key stage = Except.ok () ↔
      (∃ r, h.getRing key.shard_key = some r) ∧
      ∃ st, h.resharding_state = some st ∧ st.matches key = true ∧
        st.stage = stage := by
  unfold check_resharding check_stage
  cases hr : h.getRing key.shard_key with
  | none => simp [hr]
  | some r =>
    cases hst : h.resharding_state with
    | none => simp
    | some st =>
      by_cases hm : st.matches key = true
      · by_cases hs : st.stage = stage <;> simp [hm, hs]
      · have hm' : st.matches key = false := by
          revert hm
          cases st.matches key <;> simp
        simp [hm']

/-- C2: `commit_read_hashring` succeeds exactly when the matching
resharding is at `MigratingPoints` (and the key's hash ring exists) and
then advances the stage to `ReadHashRingCommitted`;
`commit_write_hashring` succeeds exactly at `ReadHashRingCommitted` and
advances to `WriteHashRingCommitted`; every failing commit leaves the
holder unchanged.  Hence along any operation sequence the stage moves
only through MigratingPoints → ReadHashRingCommitted →
WriteHashRingCommitted, one step at a time. -/
theorem commit_hashring_stage_machine (h : ShardHolder) (key : ReshardKey) :
    ((commit_read_hashring h key).1 = Except.ok () ↔
      (∃ r, h.getRing key.shard_key = some r) ∧
      ∃ st, h.resharding_state = some st ∧ st.matches key = true ∧
        st.stage = ReshardStage.MigratingPoints) ∧
    ((commit_write_hashring h key).1 = Except.ok () ↔
      (∃ r, h.getRing key.shard_key = some r) ∧
      ∃ st, h.resharding_state = some st ∧ st.matches key = true ∧
        st.stage = ReshardStage.ReadHashRingCommitted) ∧
    (∀ st, h.resharding_state = some st →
      (commit_read_hashring h key).1 = Except.ok () →
      (commit_read_hashring h key).2.resharding_state =
        some { st with stage := ReshardStage.ReadHashRingCommitted }) ∧
    (∀ st, h.resharding_state = some st →
      (commit_write_hashring h key).1 = Except.ok () →
      (commit_write_hashring h key).2.resharding_state =
        some { st with stage := ReshardStage.WriteHashRingCommitted }) ∧
    (∀ e, (commit_read_hashring h key).1 = Except.error e →
      (commit_read_hashring h key).2 = h) ∧
    (∀ e, (commit_write_hashring h key).1 = Except.error e →
      (commit_write_hashring h key).2 = h) := by
  have hread := check_resharding_ok_iff h key ReshardStage.MigratingPoints
  have hwrite := check_resharding_ok_iff h key ReshardStage.ReadHashRingCommitted
  refine ⟨?_, ?_, ?_, ?_, ?_, ?_⟩
  · rw [← hread]
    unfold commit_read_hashring
    cases hc : check_resharding h key ReshardStage.MigratingPoints <;> simp [hc]
  · rw [← hwrite]
    unfold commit_write_hashring
    cases hc : check_resharding h key ReshardStage.ReadHashRingCommitted <;> simp [hc]
  · intro st hst hok
    unfold commit_read_hashring at hok ⊢
    cases hc : check_resharding h key ReshardStage.MigratingPoints with
    | error e => simp [hc] at hok
    | ok u => simp [hc, hst]
  · intro st hst hok
    unfold commit_write_hashring at hok ⊢
    cases hc : check_resharding h key ReshardStage.ReadHashRingCommitted with
    | error e => simp [hc] at hok
    | ok u =>
      cases hr : h.getRing key.shard_key <;>
        simp [hc, hr, ShardHolder.setRing, hst]
  · intro e he
    unfold commit_read_hashring at he ⊢
    cases hc : check_resharding h key ReshardStage.MigratingPoints <;> simp [hc] at he ⊢
  · intro e he
    unfold commit_write_hashring at he ⊢
    cases hc : check_resharding h key ReshardStage.ReadHashRingCommitted <;> simp [hc] at he ⊢

/-- Witness for C2 at a concrete holder: at `MigratingPoints`,
committing the read hash ring succeeds and advances the stage, and a
subsequently repeated read commit is covered by the failure clause. -/
theorem commit_hashring_stage_machine_witness :
    (commit_read_hashring
      { resharding_state := some ⟨ReshardingDirection.Up, 7, 3, none,
          ReshardStage.MigratingPoints⟩,
        rings := [(none, HashRingRouter.Resharding [1, 2] [1, 2, 3])],
        shards := [], shard_id_to_key_mapping := [], key_mapping := [] }
      ⟨ReshardingDirection.Up, 7, 3, none⟩).1 = Except.ok () :=
  (commit_hashring_stage_machine _ _).1.mpr
    ⟨⟨HashRingRouter.Resharding [1, 2] [1, 2, 3], by decide⟩,
      ⟨ReshardingDirection.Up, 7, 3, none, ReshardStage.MigratingPoints⟩,
      rfl, by decide, rfl⟩

/-! ## Indexing optimizer theorems (C6) -/

/-- The `max_by_key` fold yields an element of the list or the initial
accumulator. -/
theorem maxByCountLast_aux_mem :
    ∀ (l : List (Nat × Nat)) (acc : Option (Nat × Nat)) (x : Nat × Nat),
      l.foldl
        (fun acc x =>
          match acc with
          | none => some x
          | some best => if best.2 ≤ x.2 then some x else some best)
        acc = some x →
      x ∈ l ∨ acc = some x := by
  intro l
  induction l with
  | nil => intro acc x h; exact Or.inr h
  | cons a t ih =>
    intro acc x h
    rcases ih _ x h with hmem | hacc
    · exact Or.inl (List.mem_cons_of_mem _ hmem)
    · cases acc with
      | none =>
        simp at hacc
        exact Or.inl (hacc ▸ List.mem_cons_self _ _)
      | some best =>
        by_cases hle : best.2 ≤ a.2
        · simp [hle] at hacc
          exact Or.inl (hacc ▸ List.mem_cons_self _ _)
        · simp [hle] at hacc
          exact Or.inr (by rw [hacc])

/-- The `max_by_key` fold result dominates every list element and the
initial accumulator. -/
theorem maxByCountLast_aux_ge :
    ∀ (l : List (Nat × Nat)) (acc : Option (Nat × Nat)) (x : Nat × Nat),
      l.foldl
        (fun acc x =>
          match acc with
          | none => some x
          | some best => if best.2 ≤ x.2 then some x else some best)
        acc = some x →
      (∀ y ∈ l, y.2 ≤ x.2) ∧ (∀ a, acc = some a → a.2 ≤ x.2) := by
  intro l
  induction l with
  | nil =>
    intro acc x h
    exact ⟨by simp, fun a ha => by simp [ha] at h; simp [h]⟩
  | cons a t ih =>
    intro acc x h
    obtain ⟨ht, hacc⟩ := ih _ x h
    have hc : ∃ c,
        (match acc with
          | none => some a
          | some best => if best.2 ≤ a.2 then some a else some best) = some c ∧
        a.2 ≤ c.2 ∧ ∀ b, acc = some b → b.2 ≤ c.2 := by
      cases acc with
      | none => exact ⟨a, rfl, le_refl _, by simp⟩
      | some best =>
        by_cases hle : best.2 ≤ a.2
        · exact ⟨a, by simp [hle], le_refl _, fun b hb => by cases hb; exact hle⟩
        · exact ⟨best, by simp [hle], Nat.le_of_lt (Nat.lt_of_not_le hle),
            fun b hb => by cases hb; exact le_refl _⟩
    obtain ⟨c, hceq, hac, hbc⟩ := hc
    have hcx : c.2 ≤ x.2 := hacc c hceq
    refine ⟨?_, fun b hb => le_trans (hbc b hb) hcx⟩
    intro y hy
    rcases List.mem_cons.mp hy with rfl | hy
    · exact le_trans hac hcx
    · exact ht y hy

/-- The `max_by_key` fold starting from a `some` accumulator stays
`some`. -/
theorem maxByCountLast_aux_isSome :
    ∀ (l : List (Nat × Nat)) (a : Nat × Nat),
      (l.foldl
        (fun acc x =>
          match acc with
          | none => some x
          | some best => if best.2 ≤ x.2 then some x else some best)
        (some a)).isSome = true := by
  intro l
  induction l with
  | nil => intro a; rfl
  | cons b t ih =>
    intro a
    by_cases hle : a.2 ≤ b.2 <;> simp [List.foldl_cons, hle, ih]

/-- `maxByCountLast` is `none` exactly on the empty list. -/
theorem maxByCountLast_eq_none_iff (l : List (Nat × Nat)) :
    maxByCountLast l = none ↔ l = [] := by
  cases l with
  | nil => simp [maxByCountLast]
  | cons a t =>
    simp only [maxByCountLast, List.foldl_cons]
    have := maxByCountLast_aux_isSome t a
    constructor
    · intro h
      rw [h] at this
      simp at this
    · intro h
      simp at h

/-- C6: `worst_segment` returns nothing exactly when no segment is
promotable; a returned segment is a non-`Special` promotable segment
with the largest vector count among promotable ones; and a segment is
promotable exactly under the claimed three-way disjunction. -/
theorem indexing_optimizer_worst_segment (th : OptimizerThresholds)
    (segments : List (Nat × SegmentView)) :
    (worst_segment th segments = none ↔
      ∀ e ∈ segments, e.2.segment_type = SegmentType.Special ∨
        require_indexing th e.2 = false) ∧
    (∀ i, worst_segment th segments = some i →
      ∃ e, e ∈ segments ∧ e.1 = i ∧ e.2.segment_type ≠ SegmentType.Special ∧
        require_indexing th e.2 = true ∧
        ∀ e' ∈ segments, e'.2.segment_type ≠ SegmentType.Special →
          require_indexing th e'.2 = true →
          e'.2.vectors_count ≤ e.2.vectors_count) ∧
    (∀ s : SegmentView, require_indexing th s = true ↔
      (th.memmap_threshold ≤ s.vectors_count ∧ s.storage_type ≠ StorageType.Mmap) ∨
      (th.indexing_threshold ≤ s.vectors_count ∧ s.index ≠ Indexes.Hnsw) ∨
      (s.indexed_fields ≠ [] ∧ th.payload_indexing_threshold ≤ s.vectors_count ∧
        s.payload_index.getD PayloadIndexType.Plain ≠ PayloadIndexType.Struct)) := by
  have hfm : ∀ e : Nat × SegmentView,
      ((if e.2.segment_type = SegmentType.Special then none
        else if require_indexing th e.2 then some (e.1, e.2.vectors_count)
        else none) = none) ↔
      (e.2.segment_type = SegmentType.Special ∨ require_indexing th e.2 = false) := by
    intro e
    by_cases hsp : e.2.segment_type = SegmentType.Special
    · simp [hsp]
    · by_cases hreq : require_indexing th e.2 <;> simp [hsp, hreq]
  refine ⟨?_, ?_, ?_⟩
  · simp only [worst_segment, Option.map_eq_none', maxByCountLast_eq_none_iff,
      List.filterMap_eq_nil_iff]
    exact ⟨fun h e he => (hfm e).mp (h e he), fun h e he => (hfm e).mpr (h e he)⟩
  · intro i hi
    simp only [worst_segment, Option.map_eq_some'] at hi
    obtain ⟨⟨j, c⟩, hmax, hj⟩ := hi
    have hmem := maxByCountLast_aux_mem _ none _ hmax
    have hge := (maxByCountLast_aux_ge _ none _ hmax).1
    rcases hmem with hmem | hnone
    · rw [List.mem_filterMap] at hmem
      obtain ⟨e, he, hfe⟩ := hmem
      by_cases hsp : e.2.segment_type = SegmentType.Special
      · simp [hsp] at hfe
      · by_cases hreq : require_indexing th e.2 = true
        · simp [hsp, hreq] at hfe
          refine ⟨e, he, ?_, hsp, hreq, ?_⟩
          · rw [← hj, ← hfe.1]
          · intro e' he' hsp' hreq'
            have hfe' :
                (if e'.2.segment_type = SegmentType.Special then none
                  else if require_indexing th e'.2 then some (e'.1, e'.2.vectors_count)
                  else none) = some (e'.1, e'.2.vectors_count) := by
              simp [hsp', hreq']
            have hmem' : (e'.1, e'.2.vectors_count) ∈
                segments.filterMap (fun e =>
                  if e.2.segment_type = SegmentType.Special then none
                  else if require_indexing th e.2 then some (e.1, e.2.vectors_count)
                  else none) :=
              List.mem_filterMap.mpr ⟨e', he', hfe'⟩
            have := hge _ hmem'
            simpa [hfe.2] using this
        · simp [hsp, hreq] at hfe
    · cases hnone
  · intro s
    simp only [require_indexing]
    cases hidx : s.index <;> cases hstore : s.storage_type <;>
      cases hpay : s.payload_index.getD PayloadIndexType.Plain <;>
        by_cases hfe : s.indexed_fields = [] <;>
          (simp [hfe, ge_iff_le]; try tauto)

/-- Witness for C6 at a concrete holder: among a small plain segment
and a large plain segment over the indexing threshold, the large one is
selected. -/
theorem indexing_optimizer_worst_segment_witness :
    ∃ e, e ∈ [(1, (⟨SegmentType.Plain, 25, Indexes.Plain, none,
        StorageType.InMemory, []⟩ : SegmentView)),
      (2, ⟨SegmentType.Plain, 200, Indexes.Plain, none,
        StorageType.InMemory, []⟩)] ∧ e.1 = 2 ∧
      e.2.segment_type ≠ SegmentType.Special ∧
      require_indexing ⟨1000, 50, 50⟩ e.2 = true ∧
      ∀ e' ∈ [(1, (⟨SegmentType.Plain, 25, Indexes.Plain, none,
          StorageType.InMemory, []⟩ : SegmentView)),
        (2, ⟨SegmentType.Plain, 200, Indexes.Plain, none,
          StorageType.InMemory, []⟩)],
        e'.2.segment_type ≠ SegmentType.Special →
        require_indexing ⟨1000, 50, 50⟩ e'.2 = true →
        e'.2.vectors_count ≤ e.2.vectors_count :=
  (indexing_optimizer_worst_segment ⟨1000, 50, 50⟩ _).2.1 2 (by decide)

/-! ## Shard transfer theorems (C8, C9) -/

/-- C8: contrary to the claim (and to the function's own documentation,
"Shard replica should preferably be non-active"), the comparator in
`suggest_peer_to_remove_replica` sorts `Active` candidates *first*, so
with one `Active` and one `Dead` replica of equal load the function
returns the `Active` peer (peer 1), not the `Dead` one (peer 2) —
whichever way the hash map happens to order the candidates. -/
theorem suggest_peer_to_remove_prefers_active :
    suggest_peer_to_remove_replica [(0, [1, 2])]
      [(1, ReplicaState.Active), (2, ReplicaState.Dead)] = some 1 ∧
    suggest_peer_to_remove_replica [(0, [1, 2])]
      [(2, ReplicaState.Dead), (1, ReplicaState.Active)] = some 1 := by
  decide

/-- The retry loop makes at most `tries` further attempts. -/
theorem transferLoopGo_attempts_le (attempt : Nat → TransferOutcome)
    (stopped : Nat → Bool) :
    ∀ tries n sleeps,
      (transferLoopGo attempt stopped tries n sleeps).2.1 ≤ n + tries := by
  intro tries
  induction tries with
  | zero => intro n sleeps; simp [transferLoopGo]
  | succ t ih =>
    intro n sleeps
    cases h : attempt n with
    | cancelled =>
      simp only [transferLoopGo, h]
      show n + 1 ≤ n + (t + 1)
      omega
    | ok =>
      simp only [transferLoopGo, h]
      by_cases hs : stopped n = true
      · rw [if_pos hs]
        show n + 1 ≤ n + (t + 1)
        omega
      · rw [if_neg hs]
        show n + 1 ≤ n + (t + 1)
        omega
    | failed =>
      simp only [transferLoopGo, h]
      by_cases hs : stopped n = true
      · rw [if_pos hs]
        show n + 1 ≤ n + (t + 1)
        omega
      · rw [if_neg hs]
        exact le_trans (ih (n + 1) _) (by omega)

/-- The back-off sleeps recorded by the retry loop grow linearly: the
`j`-th sleep is `(j + 1) * RETRY_TIMEOUT`. -/
theorem transferLoopGo_sleeps_linear (attempt : Nat → TransferOutcome)
    (stopped : Nat → Bool) :
    ∀ tries n sleeps, tries ≤ maxRetryCount →
      sleeps.length = maxRetryCount - tries →
      (∀ j, j < sleeps.length → sleeps.getD j 0 = (j + 1) * retryTimeoutMs) →
      ∀ j, j < (transferLoopGo attempt stopped tries n sleeps).2.2.length →
        (transferLoopGo attempt stopped tries n sleeps).2.2.getD j 0 =
          (j + 1) * retryTimeoutMs := by
  intro tries
  induction tries with
  | zero =>
    intro n sleeps _ _ hval
    simpa [transferLoopGo] using hval
  | succ t ih =>
    intro n sleeps htries hlen hval
    have hnew :
        ∀ j, j < (sleeps ++ [retryTimeoutMs * (maxRetryCount - t)]).length →
          (sleeps ++ [retryTimeoutMs * (maxRetryCount - t)]).getD j 0 =
            (j + 1) * retryTimeoutMs := by
      intro j hj
      rcases Nat.lt_or_ge j sleeps.length with hlt | hge
      · rw [List.getD_append _ _ _ _ hlt]
        exact hval j hlt
      · have hj' : j = sleeps.length := by
          simp at hj
          omega
        subst hj'
        rw [List.getD_append_right _ _ _ _ hge]
        simp [hlen]
        rw [Nat.mul_comm]
        congr 1
        omega
    have hlen' : (sleeps ++ [retryTimeoutMs * (maxRetryCount - t)]).length =
        maxRetryCount - t := by
      simp [hlen]
      omega
    cases h : attempt n with
    | cancelled =>
      simp only [transferLoopGo, h]
      exact hval
    | ok =>
      simp only [transferLoopGo, h]
      by_cases hs : stopped n = true
      · rw [if_pos hs]; exact hval
      · rw [if_neg hs]; exact hval
    | failed =>
      simp only [transferLoopGo, h]
      by_cases hs : stopped n = true
      · rw [if_pos hs]; exact hval
      · rw [if_neg hs]
        exact ih (n + 1) _ (by omega) hlen' hnew

/-- The batch loop succeeds exactly when the stop flag never fires
during its iterations. -/
theorem transferBatchesGo_ok_iff (stopped : Nat → Bool) :
    ∀ batches n, transferBatchesGo stopped batches n = Except.ok () ↔
      ∀ k, k ≤ batches → stopped (n + k) = false := by
  intro batches
  induction batches with
  | zero =>
    intro n
    by_cases hs : stopped n = true
    · rw [transferBatchesGo, if_pos hs]
      constructor
      · intro hcontra
        simp at hcontra
      · intro hall
        exact absurd (by simpa using hall 0 (le_refl 0)) (by simp [hs])
    · rw [transferBatchesGo, if_neg hs]
      constructor
      · intro _ k hk
        have hk0 : k = 0 := Nat.le_zero.mp hk
        subst hk0
        have hs' : stopped n = false := by revert hs; cases stopped n <;> simp
        simpa using hs'
      · intro _
        rfl
  | succ b ih =>
    intro n
    by_cases hs : stopped n = true
    · rw [transferBatchesGo, if_pos hs]
      constructor
      · intro hcontra
        simp at hcontra
      · intro hall
        exact absurd (by simpa using hall 0 (by omega)) (by simp [hs])
    · rw [transferBatchesGo, if_neg hs, ih (n + 1)]
      constructor
      · intro h k hk
        cases k with
        | zero =>
          have hs' : stopped n = false := by revert hs; cases stopped n <;> simp
          simpa using hs'
        | succ k' =>
          have := h k' (by omega)
          simpa [Nat.add_comm, Nat.add_assoc, Nat.add_left_comm] using this
      · intro h k hk
        have := h (k + 1) (by omega)
        simpa [Nat.add_comm, Nat.add_assoc, Nat.add_left_comm] using this

theorem transferBatchesGo_error (stopped : Nat → Bool) :
    ∀ batches n, transferBatchesGo stopped batches n = Except.ok () ∨
      transferBatchesGo stopped batches n = Except.error "Transfer cancelled" := by
  intro batches
  induction batches with
  | zero =>
    intro n
    by_cases hs : stopped n = true
    · rw [transferBatchesGo, if_pos hs]
      exact Or.inr rfl
    · rw [transferBatchesGo, if_neg hs]
      exact Or.inl rfl
  | succ b ih =>
    intro n
    by_cases hs : stopped n = true
    · rw [transferBatchesGo, if_pos hs]
      exact Or.inr rfl
    · rw [transferBatchesGo, if_neg hs]
      exact ih (n + 1)

/-- C9 (amended): the spawned transfer task makes at most
`MAX_RETRY_COUNT = 3` attempts; the back-off between attempts grows
*linearly* (`(j+1) * RETRY_TIMEOUT` after the `j`-th failure, i.e.
1s, 2s, 3s), not exponentially; a `Cancelled` attempt makes the task
return immediately with no further retry and no back-off; and the batch
loop returns the `Cancelled` error exactly when the cooperative stop
flag fires at one of its batch boundaries. -/
theorem transfer_retry_and_cancellation :
    (∀ attempt stopped, (spawn_transfer_task attempt stopped).2.1 ≤ maxRetryCount) ∧
    (∀ attempt stopped j, j < (spawn_transfer_task attempt stopped).2.2.length →
      (spawn_transfer_task attempt stopped).2.2.getD j 0 = (j + 1) * retryTimeoutMs) ∧
    (∀ attempt stopped tries n sleeps, attempt n = TransferOutcome.cancelled →
      transferLoopGo attempt stopped (tries + 1) n sleeps = (false, n + 1, sleeps)) ∧
    (∀ stopped batches, transfer_batches stopped batches = Except.ok () ↔
      ∀ k, k ≤ batches → stopped k = false) ∧
    (∀ stopped batches, transfer_batches stopped batches ≠ Except.ok () →
      transfer_batches stopped batches = Except.error "Transfer cancelled") := by
  refine ⟨?_, ?_, ?_, ?_, ?_⟩
  · intro attempt stopped
    simpa [spawn_transfer_task] using
      transferLoopGo_attempts_le attempt stopped maxRetryCount 0 []
  · intro attempt stopped j hj
    exact transferLoopGo_sleeps_linear attempt stopped maxRetryCount 0 []
      (le_refl _) (by simp) (by simp) j hj
  · intro attempt stopped tries n sleeps hc
    unfold transferLoopGo
    simp [hc]
  · intro stopped batches
    simpa using transferBatchesGo_ok_iff stopped batches 0
  · intro stopped batches hne
    rcases transferBatchesGo_error stopped batches 0 with h | h
    · exact absurd h hne
    · exact h

/-- Witness for C9 at concrete inputs: a first attempt that reports
`Cancelled` ends the task at once with one attempt made and no
back-off sleeps. -/
theorem transfer_retry_and_cancellation_witness :
    transferLoopGo (fun _ => TransferOutcome.cancelled) (fun _ => false) 3 0 [] =
      (false, 1, []) :=
  transfer_retry_and_cancellation.2.2.1 (fun _ => TransferOutcome.cancelled)
    (fun _ => false) 2 0 [] rfl

/-- C9 counterexample to the claimed *exponential* back-off: with every
attempt failing (non-cancelled) and the stop flag never set, the task
makes its 3 attempts and sleeps 1000 ms, 2000 ms, 3000 ms — the second
gap doubles the first but the third does not double the second, so the
growth is linear, not exponential. -/
theorem transfer_backoff_not_exponential :
    spawn_transfer_task (fun _ => TransferOutcome.failed) (fun _ => false) =
      (false, 3, [1000, 2000, 3000]) ∧
    (2000 = 2 * 1000 ∧ ¬((3000 : Nat) = 2 * 2000)) := by
  decide

/-! ## Query merge theorems (C7) -/

/-- The merge predicate is asymmetric. -/
theorem mergePred_asymm (ord : ScoreOrder) (a b : ScoredPoint)
    (h : mergePred ord a b = true) : mergePred ord b a = false := by
  cases ord <;> simp [mergePred] at h ⊢ <;> omega

/-- "Does not strictly precede" is transitive. -/
theorem mergePred_rtrans (ord : ScoreOrder) (a b c : ScoredPoint)
    (hab : mergePred ord b a = false) (hbc : mergePred ord c b = false) :
    mergePred ord c a = false := by
  cases ord <;> simp [mergePred] at hab hbc ⊢ <;> omega

/-- `mergeBy` on the empty left stream. -/
theorem mergeBy_nil_left (pred : ScoredPoint → ScoredPoint → Bool)
    (ys : List ScoredPoint) : mergeBy pred [] ys = ys := by
  simp [mergeBy]

/-- `mergeBy` on the empty right stream. -/
theorem mergeBy_nil_right (pred : ScoredPoint → ScoredPoint → Bool)
    (xs : List ScoredPoint) : mergeBy pred xs [] = xs := by
  cases xs <;> simp [mergeBy]

/-- The step equation of `mergeBy`. -/
theorem mergeBy_cons_cons (pred : ScoredPoint → ScoredPoint → Bool)
    (x : ScoredPoint) (xs : List ScoredPoint) (y : ScoredPoint)
    (ys : List ScoredPoint) :
    mergeBy pred (x :: xs) (y :: ys) =
      if pred x y then x :: mergeBy pred xs (y :: ys)
      else y :: mergeBy pred (x :: xs) ys := by
  simp [mergeBy]

/-- Every element of a merge comes from one of the two streams. -/
theorem mem_mergeBy (pred : ScoredPoint → ScoredPoint → Bool) :
    ∀ (xs ys : List ScoredPoint) (z : ScoredPoint),
      z ∈ mergeBy pred xs ys → z ∈ xs ∨ z ∈ ys := by
  intro xs ys
  induction xs, ys using mergeBy.induct pred with
  | case1 ys =>
    intro z hz
    exact Or.inr (by simpa [mergeBy_nil_left] using hz)
  | case2 xs h =>
    intro z hz
    exact Or.inl (by rwa [mergeBy_nil_right] at hz)
  | case3 x xs y ys hp ih =>
    intro z hz
    rw [mergeBy_cons_cons, if_pos hp] at hz
    rcases List.mem_cons.mp hz with rfl | hz'
    · exact Or.inl (List.mem_cons_self _ _)
    · rcases ih z hz' with h1 | h2
      · exact Or.inl (List.mem_cons_of_mem _ h1)
      · exact Or.inr h2
  | case4 x xs y ys hp ih =>
    intro z hz
    rw [mergeBy_cons_cons, if_neg hp] at hz
    rcases List.mem_cons.mp hz with rfl | hz'
    · exact Or.inr (List.mem_cons_self _ _)
    · rcases ih z hz' with h1 | h2
      · exact Or.inl h1
      · exact Or.inr (List.mem_cons_of_mem _ h2)

/-- Merging two sorted streams under an asymmetric, co-transitive
"strictly precedes" predicate yields a sorted stream. -/
theorem mergeBy_pairwise (pred : ScoredPoint → ScoredPoint → Bool)
    (hasym : ∀ a b, pred a b = true → pred b a = false)
    (htrans : ∀ a b c, pred b a = false → pred c b = false → pred c a = false) :
    ∀ (xs ys : List ScoredPoint),
      xs.Pairwise (fun a b => pred b a = false) →
      ys.Pairwise (fun a b => pred b a = false) →
      (mergeBy pred xs ys).Pairwise (fun a b => pred b a = false) := by
  intro xs ys
  induction xs, ys using mergeBy.induct pred with
  | case1 ys =>
    intro _ hys
    simpa [mergeBy_nil_left] using hys
  | case2 xs h =>
    intro hxs _
    simpa [mergeBy_nil_right] using hxs
  | case3 x xs y ys hp ih =>
    intro hxs hys
    rw [mergeBy_cons_cons, if_pos hp]
    rw [List.pairwise_cons] at hxs ⊢
    refine ⟨?_, ih hxs.2 hys⟩
    intro w hw
    rcases mem_mergeBy pred _ _ w hw with hw1 | hw2
    · exact hxs.1 w hw1
    · rcases List.mem_cons.mp hw2 with rfl | hw3
      · exact hasym x w hp
      · exact htrans x y w (hasym x y hp) ((List.pairwise_cons.mp hys).1 w hw3)
  | case4 x xs y ys hp ih =>
    intro hxs hys
    have hxy : pred x y = false := by
      revert hp
      cases pred x y <;> simp
    rw [mergeBy_cons_cons, if_neg hp]
    rw [List.pairwise_cons] at hys ⊢
    refine ⟨?_, ih hxs hys.2⟩
    intro w hw
    rcases mem_mergeBy pred _ _ w hw with hw1 | hw2
    · rcases List.mem_cons.mp hw1 with rfl | hw3
      · exact hxy
      · exact htrans y x w hxy ((List.pairwise_cons.mp hxs).1 w hw3)
    · exact hys.1 w hw2

/-- Every element of a k-way merge comes from one of the streams. -/
theorem mem_kmergeBy (pred : ScoredPoint → ScoredPoint → Bool) :
    ∀ (lists : List (List ScoredPoint)) (z : ScoredPoint),
      z ∈ kmergeBy pred lists → ∃ l ∈ lists, z ∈ l := by
  intro lists
  induction lists with
  | nil =>
    intro z hz
    simp [kmergeBy] at hz
  | cons l rest ih =>
    intro z hz
    rcases mem_mergeBy pred _ _ z hz with h1 | h2
    · exact ⟨l, List.mem_cons_self _ _, h1⟩
    · obtain ⟨l', hl', hz'⟩ := ih z h2
      exact ⟨l', List.mem_cons_of_mem _ hl', hz'⟩

/-- A k-way merge of sorted streams is sorted. -/
theorem kmergeBy_pairwise (ord : ScoreOrder) :
    ∀ (lists : List (List ScoredPoint)),
      (∀ l ∈ lists, sortedByOrd ord l) →
      (kmergeBy (mergePred ord) lists).Pairwise
        (fun a b => mergePred ord b a = false) := by
  intro lists
  induction lists with
  | nil => intro _; simp [kmergeBy]
  | cons l rest ih =>
    intro h
    exact mergeBy_pairwise (mergePred ord) (mergePred_asymm ord)
      (fun a b c => mergePred_rtrans ord a b c) l (kmergeBy (mergePred ord) rest)
      (h l (List.mem_cons_self _ _))
      (ih (fun l' hl' => h l' (List.mem_cons_of_mem _ hl')))

/-- The adjacent dedup keeps the head of a run. -/
theorem dedupById_cons_head :
    ∀ (l : List ScoredPoint) (a : ScoredPoint),
      ∃ t, dedupById (a :: l) = a :: t := by
  intro l
  induction l with
  | nil => intro a; exact ⟨[], by simp [dedupById]⟩
  | cons b rest ih =>
    intro a
    by_cases h : a.id = b.id
    · simp only [dedupById, if_pos h]
      exact ih a
    · simp only [dedupById, if_neg h]
      exact ⟨dedupById (b :: rest), rfl⟩

/-- The adjacent dedup is order-preserving (a sublist of its input,
keeping the first element of each run). -/
theorem dedupById_sublist :
    ∀ (l : List ScoredPoint), (dedupById l).Sublist l := by
  intro l
  induction l using dedupById.induct with
  | case1 => simp [dedupById]
  | case2 a => simp [dedupById]
  | case3 a b rest heq ih =>
    simp only [dedupById, if_pos heq]
    exact ih.trans ((List.sublist_cons_self b rest).cons_cons a)
  | case4 a b rest hne ih =>
    simp only [dedupById, if_neg hne]
    exact ih.cons_cons a

/-- After the adjacent dedup, no two neighbouring points share an
id. -/
theorem dedupById_chain :
    ∀ (l : List ScoredPoint), (dedupById l).Chain' (fun a b => a.id ≠ b.id) := by
  intro l
  induction l using dedupById.induct with
  | case1 => simp [dedupById]
  | case2 a => simp [dedupById]
  | case3 a b rest heq ih =>
    simpa only [dedupById, if_pos heq] using ih
  | case4 a b rest hne ih =>
    simp only [dedupById, if_neg hne]
    obtain ⟨t, ht⟩ := dedupById_cons_head rest b
    rw [ht]
    rw [ht] at ih
    exact List.Chain'.cons hne ih

/-- The per-query merge of `query_internal`: on sorted shard streams it
produces a sorted stream, with no two adjacent points sharing an id,
truncated to the requested length, and drawing only from the shard
streams. -/
theorem merge_shard_streams_spec (ord : ScoreOrder)
    (lists : List (List ScoredPoint)) (n : Nat)
    (hsorted : ∀ l ∈ lists, sortedByOrd ord l) :
    sortedByOrd ord (merge_shard_streams ord lists n) ∧
    (merge_shard_streams ord lists n).Chain' (fun a b => a.id ≠ b.id) ∧
    (merge_shard_streams ord lists n).length ≤ n ∧
    ∀ z ∈ merge_shard_streams ord lists n, ∃ l ∈ lists, z ∈ l := by
  have hmerge := kmergeBy_pairwise ord lists hsorted
  have hsub : (dedupById (kmergeBy (mergePred ord) lists)).Sublist
      (kmergeBy (mergePred ord) lists) := dedupById_sublist _
  have htake : (merge_shard_streams ord lists n).Sublist
      (dedupById (kmergeBy (mergePred ord) lists)) := List.take_sublist _ _
  refine ⟨?_, ?_, ?_, ?_⟩
  · exact List.Pairwise.sublist (htake.trans hsub) hmerge
  · exact (dedupById_chain _).take n
  · simp [merge_shard_streams]
  · intro z hz
    exact mem_kmergeBy (mergePred ord) lists z (hsub.mem (htake.mem hz))

/-- C7 (amended): `query_internal` merges, per internal query, the
per-shard streams of the transposed response matrix under the query's
derived ordering (descending for LargeBetter, ascending for
SmallBetter, ties broken by lower id), removes *adjacent* duplicates
(so identical entries returned by several shards collapse to the first
occurrence, but equal ids separated by another point are both kept),
and truncates to `offset + limit` for a root (non-fusion) query or to
each prefetch's `limit` under RRF fusion. -/
theorem query_internal_merge_contract :
    (∀ (req : ShardQueryRequest) (res : List (List (List ScoredPoint)))
        (i : Nat) (out : List ScoredPoint),
      (query_internal req res)[i]? = some out →
      ∃ inf col, (intermediate_query_infos req)[i]? = some inf ∧
        (transposeResults res)[i]? = some col ∧
        out = merge_shard_streams inf.1 col inf.2) ∧
    (∀ req : ShardQueryRequest, req.query = some ScoringQuery.FusionRrf →
      intermediate_query_infos req = req.prefetches.map fun p => (p.ord, p.limit)) ∧
    (∀ req : ShardQueryRequest, req.query ≠ some ScoringQuery.FusionRrf →
      intermediate_query_infos req = [(req.root_ord, req.offset + req.limit)]) ∧
    (∀ (ord : ScoreOrder) (lists : List (List ScoredPoint)) (n : Nat),
      (∀ l ∈ lists, sortedByOrd ord l) →
      sortedByOrd ord (merge_shard_streams ord lists n) ∧
      (merge_shard_streams ord lists n).Chain' (fun a b => a.id ≠ b.id) ∧
      (merge_shard_streams ord lists n).length ≤ n ∧
      ∀ z ∈ merge_shard_streams ord lists n, ∃ l ∈ lists, z ∈ l) := by
  refine ⟨?_, ?_, ?_, merge_shard_streams_spec⟩
  · intro req res i out h
    unfold query_internal at h
    rw [List.getElem?_map] at h
    cases hz : ((intermediate_query_infos req).zip (transposeResults res))[i]? with
    | none => rw [hz] at h; simp at h
    | some pair =>
      rw [hz] at h
      obtain ⟨hinf, hcol⟩ := List.getElem?_zip_eq_some.mp hz
      exact ⟨pair.1, pair.2, hinf, hcol, by simpa using h.symm⟩
  · intro req h
    unfold intermediate_query_infos
    rw [h]
  · intro req h
    unfold intermediate_query_infos
    cases hq : req.query with
    | none => rfl
    | some q =>
      cases q with
      | FusionRrf => exact absurd hq h
      | Scored ord => rfl

/-- Witness for C7 at concrete inputs: two sorted shard streams merge
into a sorted, adjacent-distinct, bounded result. -/
theorem query_internal_merge_contract_witness :
    sortedByOrd ScoreOrder.LargeBetter
      (merge_shard_streams ScoreOrder.LargeBetter [[⟨2, 10⟩], [⟨1, 9⟩]] 3) ∧
    (merge_shard_streams ScoreOrder.LargeBetter
      [[⟨2, 10⟩], [⟨1, 9⟩]] 3).Chain' (fun a b => a.id ≠ b.id) ∧
    (merge_shard_streams ScoreOrder.LargeBetter
      [[⟨2, 10⟩], [⟨1, 9⟩]] 3).length ≤ 3 ∧
    ∀ z ∈ merge_shard_streams ScoreOrder.LargeBetter [[⟨2, 10⟩], [⟨1, 9⟩]] 3,
      ∃ l ∈ [[(⟨2, 10⟩ : ScoredPoint)], [⟨1, 9⟩]], z ∈ l :=
  query_internal_merge_contract.2.2.2 ScoreOrder.LargeBetter
    [[⟨2, 10⟩], [⟨1, 9⟩]] 3 (by decide)

/-- C7 counterexample: the claim says duplicate point ids are removed
keeping the first occurrence, but the code's `.dedup()` only collapses
*adjacent* duplicates after the sorted merge; with shard streams
`[[id 2 @ 10]]` and `[[id 1 @ 9, id 2 @ 8]]` the merged root result
keeps id 2 twice, because its two entries are separated by id 1. -/
theorem query_internal_dedup_by_id_fails :
    query_internal cexReq [[[⟨2, 10⟩]], [[⟨1, 9⟩, ⟨2, 8⟩]]] =
      [[⟨2, 10⟩, ⟨1, 9⟩, ⟨2, 8⟩]] ∧
    ((query_internal cexReq [[[⟨2, 10⟩]], [[⟨1, 9⟩, ⟨2, 8⟩]]]).headD []).map
      ScoredPoint.id = [2, 1, 2] ∧
    ¬ ([2, 1, 2] : List Nat).Nodup ∧
    sortedByOrd ScoreOrder.LargeBetter [⟨2, 10⟩] ∧
    sortedByOrd ScoreOrder.LargeBetter [⟨1, 9⟩, ⟨2, 8⟩] := by
  have hq : query_internal cexReq [[[⟨2, 10⟩]], [[⟨1, 9⟩, ⟨2, 8⟩]]] =
      [[⟨2, 10⟩, ⟨1, 9⟩, ⟨2, 8⟩]] := by
    simp [query_internal, cexReq, intermediate_query_infos, transposeResults,
      merge_shard_streams, kmergeBy, mergeBy, dedupById, mergePred,
      List.range_succ]
  refine ⟨hq, by rw [hq]; decide, by decide, by decide, by decide⟩

/-! ## Payload condition checker theorems (C10) -/

/-- C10: for every payload condition checker, a JSON array matches
exactly when some element matches, any non-array value is evaluated
directly, and a value of a mismatched JSON type (non-string for keyword
match, non-number for integer match and range, non-object for the geo
conditions) never matches. -/
theorem condition_checker_array_semantics :
    (∀ (check_match : JsonValue → Bool) (l : List JsonValue),
      checkValue check_match (JsonValue.arr l) = l.any check_match) ∧
    (∀ (check_match : JsonValue → Bool) (v : JsonValue),
      (∀ l, v ≠ JsonValue.arr l) → checkValue check_match v = check_match v) ∧
    (∀ (m : MatchKeyword) (v : JsonValue), (∀ s, v ≠ JsonValue.str s) →
      m.check_match v = false) ∧
    (∀ (m : MatchInteger) (v : JsonValue), (∀ q, v ≠ JsonValue.num q) →
      m.check_match v = false) ∧
    (∀ (r : RangeCond) (v : JsonValue), (∀ q, v ≠ JsonValue.num q) →
      r.check_match v = false) ∧
    (∀ (g : GeoCond) (v : JsonValue), (∀ fields, v ≠ JsonValue.obj fields) →
      g.check_match v = false) := by
  refine ⟨fun _ _ => rfl, ?_, ?_, ?_, ?_, ?_⟩
  · intro check_match v hv
    cases v with
    | arr l => exact absurd rfl (hv l)
    | null => rfl
    | bool b => rfl
    | num q => rfl
    | str s => rfl
    | obj fields => rfl
  · intro m v hv
    cases v with
    | str s => exact absurd rfl (hv s)
    | null => rfl
    | bool b => rfl
    | num q => rfl
    | arr l => rfl
    | obj fields => rfl
  · intro m v hv
    cases v with
    | num q => exact absurd rfl (hv q)
    | null => rfl
    | bool b => rfl
    | str s => rfl
    | arr l => rfl
    | obj fields => rfl
  · intro r v hv
    cases v with
    | num q => exact absurd rfl (hv q)
    | null => rfl
    | bool b => rfl
    | str s => rfl
    | arr l => rfl
    | obj fields => rfl
  · intro g v hv
    cases v with
    | obj fields => exact absurd rfl (hv fields)
    | null => rfl
    | bool b => rfl
    | num q => rfl
    | str s => rfl
    | arr l => rfl

/-- Witness for C10 at concrete values: an array containing one
matching string matches the keyword condition, and the keyword checker
rejects a JSON number. -/
theorem condition_checker_array_semantics_witness :
    checkValue (MatchKeyword.check_match ⟨"red"⟩)
      (JsonValue.arr [JsonValue.num 3, JsonValue.str "red"]) =
      [JsonValue.num 3, JsonValue.str "red"].any (MatchKeyword.check_match ⟨"red"⟩) ∧
    MatchKeyword.check_match ⟨"red"⟩ (JsonValue.num 3) = false :=
  ⟨condition_checker_array_semantics.1 _ _,
    condition_checker_array_semantics.2.2.1 ⟨"red"⟩ (JsonValue.num 3)
      (fun s h => by cases h)⟩

end Qdrant
